import Mathlib

/-!
Verification of the Inno Setup Script parser (`src/python/ISStest/iss.py`).

The parser is embedded shallowly: Python byte strings become `List Char`
(named `Str` below), `fp.readline()` lines become elements of a `List Str`,
dictionaries created through `self._dict` (an `OrderedDict`) become ordered
association lists, and the single-pass line classifier of
`ConfigParser._read` becomes a fold of a `step` function over the lines.
Unhandled Python exceptions (`KeyError`, `AttributeError`, ...) are modelled
as a `halt` field of the machine state that freezes further processing, the
way `raise` aborts Python's read loop.

Every definition mirrors the corresponding construct of iss.py; line numbers
in the doc comments refer to that file.  Lines produced by `fp.readline()`
are nonempty and contain a newline only as their final character; the
regular-expression models below are faithful on that domain.
-/

set_option maxHeartbeats 1000000

namespace ISS

/-! ## Definitions: the shallow embedding of iss.py -/


/-- Python strings (byte strings of iss.py) as lists of characters. -/

abbrev Str := List Char

/-- The whitespace class of Python 2 `str` (`string.whitespace`,
`' \t\n\r\x0b\x0c'`): used by `str.strip()`, `str.split(None)`,
`ch.isspace()` (iss.py lines 387, 394, 395, 434) and by the regex class
`\s` in `OPTCRE` (line 349). -/

def pyIsSpace (c : Char) : Bool :=
  c = ' ' || c = '\t' || c = '\n' || c = '\r' || c = '\x0B' || c = '\x0C'

/-- Python `str.lstrip()`. -/

def pyLstrip (l : Str) : Str := l.dropWhile pyIsSpace

/-- Python `str.rstrip()`. -/

def pyRstrip (l : Str) : Str := (l.reverse.dropWhile pyIsSpace).reverse

/-- Python `str.strip()`. -/

def pyStrip (l : Str) : Str := pyLstrip (pyRstrip l)

/-- Python `str.lower()` on a single ASCII character. -/

def pyLowerChar (c : Char) : Char :=
  if 'A' ≤ c ∧ c ≤ 'Z' then Char.ofNat (c.toNat + 32) else c

/-- Python `str.lower()` (iss.py lines 190, 390). -/

def pyLower (l : Str) : Str := l.map pyLowerChar

/-- `line[0]` for the nonempty lines produced by `readline` (the default is
never reached on that domain). -/

def pyHead (l : Str) : Char := l.headD (Char.ofNat 0)

/-- `line.split(None, 1)[0]`: the first whitespace-delimited token of a
non-blank line (iss.py line 390). -/

def firstToken (l : Str) : Str :=
  (l.dropWhile pyIsSpace).takeWhile (fun c => !(pyIsSpace c))

/-- Reserved defaults pseudo-section name, iss.py line 77. -/

def DEFAULTSECT : Str := "DEFAULT".data

/-- The single structured section name, iss.py line 78. -/

def SETUP : Str := "Setup".data

/-- Sentinel key for verbatim section bodies, iss.py line 79. -/

def CONTENTBLOCK : Str := "__Content__".data

/-- The internal section-name attribute key `'__name__'` (iss.py lines 388,
410, 417). -/

def NAMEKEY : Str := "__name__".data

/-- The heterogeneous values an iss.py section dictionary holds: strings
(`__name__`, content blocks, joined option values), pending lists of value
pieces built at lines 440/397, and `None` for valueless options
(line 443). -/

inductive Val where
  | vStr (s : Str)
  | vList (l : List Str)
  | vNone
deriving DecidableEq, Repr

/-- An `OrderedDict` as iss.py uses it: an association list in insertion
order with unique keys. -/

abbrev Od := List (Str × Val)

/-- Python `d[k]` lookup, as an `Option`. -/

def odGet? (d : Od) (k : Str) : Option Val :=
  match d with
  | [] => none
  | (k', v) :: rest => if k' = k then some v else odGet? rest k

/-- Python `k in d`. -/

def odHas (d : Od) (k : Str) : Bool := (odGet? d k).isSome

/-- Python `d[k] = v` on an `OrderedDict`: an existing key keeps its
position, a new key is appended. -/

def odSet (d : Od) (k : Str) (v : Val) : Od :=
  match d with
  | [] => [(k, v)]
  | (k', v') :: rest => if k' = k then (k', v) :: rest else (k', v') :: odSet rest k v

/-- The `self._sections` store: section name to section dictionary, in
insertion order (an `OrderedDict` as well). -/

abbrev Sects := List (Str × Od)

/-- `self._sections[n]` lookup. -/

def secGet? (ss : Sects) (n : Str) : Option Od :=
  match ss with
  | [] => none
  | (n', d) :: rest => if n' = n then some d else secGet? rest n

/-- `n in self._sections`. -/

def secHas (ss : Sects) (n : Str) : Bool := (secGet? ss n).isSome

/-- `self._sections[n] = d` with `OrderedDict` update semantics. -/

def secSet (ss : Sects) (n : Str) (d : Od) : Sects :=
  match ss with
  | [] => [(n, d)]
  | (n', d') :: rest => if n' = n then (n', d) :: rest else (n', d') :: secSet rest n d

/-- What the local variable `cursect` of `_read` references: `None`, the
defaults dictionary (`self._defaults`), or a named entry of
`self._sections` (iss.py lines 377, 405, 407, 409). -/

inductive CurRef where
  | defaults
  | sect (n : Str)
deriving DecidableEq, Repr

/-- The unhandled exceptions that abort `_read`: the `KeyError` raised by
`cursect['__name__']` when the key is absent (lines 388, 417) or by
`cursect[optname]` (line 397), the `AttributeError` of `None.append` /
`str.append` (line 397), a `TypeError` from `str + list` (line 420, never
reachable), and the fatal `MissingSectionHeaderError` (line 416). -/

inductive Halt where
  | keyErr (k : Str)
  | attrErr
  | typeErr
  | missingHeader (lineno : Nat) (line : Str)
deriving DecidableEq, Repr

/-- The full state of the `_read` loop: the two stores being mutated plus
the loop-local variables `cursect`, `optname`, `lineno`, the accumulating
`ParsingError` pairs `e.errors`, and the pending abort, if any. -/

structure RS where
  sections : Sects
  defaults : Od
  cursect : Option CurRef
  optname : Option Str
  lineno : Nat
  errs : List (Nat × Str)
  halt : Option Halt
deriving DecidableEq, Repr

/-- `cursect[k]` through the reference. -/

def RS.curGet (rs : RS) (k : Str) : Option Val :=
  match rs.cursect with
  | none => none
  | some .defaults => odGet? rs.defaults k
  | some (.sect n) => (secGet? rs.sections n).bind (fun d => odGet? d k)

/-- `cursect[k] = v` through the reference. -/

def RS.curSet (rs : RS) (k : Str) (v : Val) : RS :=
  match rs.cursect with
  | none => rs
  | some .defaults => { rs with defaults := odSet rs.defaults k v }
  | some (.sect n) =>
    match secGet? rs.sections n with
    | none => rs
    | some d => { rs with sections := secSet rs.sections n (odSet d k v) }

/-- `SECTCRE.match(line)` (iss.py lines 344-348): `\[(?P<header>[^]]+)\]`
anchored at the start of the line; returns the header text.  The greedy
run `[^]]+` must be nonempty and be followed by a `]`. -/

def sectMatch (line : Str) : Option Str :=
  match line with
  | [] => none
  | c :: rest =>
    if c = '[' then
      match rest.dropWhile (fun x => x ≠ ']') with
      | ']' :: _ =>
        if rest.takeWhile (fun x => x ≠ ']') = [] then none
        else some (rest.takeWhile (fun x => x ≠ ']'))
      | _ => none
    else none

/-- Split a string at its first `:` or `=`: the backtracking outcome of
`(?P<option>[^:=\s][^:=]*)\s*(?P<vi>[:=])` is that the option group extends
exactly to the first separator character. -/

def splitSep : Str → Option (Str × Char × Str)
  | [] => none
  | c :: cs =>
    if c = ':' ∨ c = '=' then some ([], c, cs)
    else
      match splitSep cs with
      | none => none
      | some (p, s, r) => some (c :: p, s, r)

/-- The groups of an `OPTCRE` / `OPTCRE_NV` match (iss.py lines 349-365). -/

structure OptMo where
  oname : Str
  vi : Option Char
  value : Option Str
deriving DecidableEq, Repr

/-- `self._optcre.match(line)` on the line body (the line without its
trailing newline): `OPTCRE` when `strict` (value required), `OPTCRE_NV`
otherwise.  The first character must lie outside `[:=\s]`; with a separator
present the value is the remainder with leading `\s*` dropped; `OPTCRE_NV`
also matches with no separator, giving `None` groups. -/

def optMatch (strict : Bool) (content : Str) : Option OptMo :=
  match content with
  | [] => none
  | c :: _ =>
    if c = ':' ∨ c = '=' ∨ pyIsSpace c then none
    else
      match splitSep content with
      | some (p, s, r) => some ⟨p, some s, some (r.dropWhile pyIsSpace)⟩
      | none => if strict then none else some ⟨content, none, none⟩

/-- The line without its final newline, i.e. the part of a `readline` line
that `.` and `$` of the option regexes can see. -/

def contOf (l : Str) : Str := if l.getLast? = some '\n' then l.dropLast else l

/-- Index of the first `;` of a string that contains one
(`optval.find(';')`, iss.py line 433). -/

def idxOfSemi : Str → Nat
  | [] => 0
  | c :: cs => if c = ';' then 0 else idxOfSemi cs + 1

/-- `optval[pos-1]` of iss.py line 434: for `pos = 0` Python's negative
indexing reads the last character of the string. -/

def pyCharBefore (ov : Str) (pos : Nat) : Char :=
  if pos = 0 then ov.getLastD (Char.ofNat 0) else ov.getD (pos - 1) (Char.ofNat 0)

/-- The comment-stripping step of iss.py lines 430-435: a `;` present in
the value is a comment delimiter only if the character `optval[pos-1]`
is whitespace, in which case everything from the `;` on is dropped. -/

def cutSemicolon (vi : Option Char) (ov : Str) : Str :=
  if (vi = some '=' ∨ vi = some ':') ∧ ';' ∈ ov then
    if pyIsSpace (pyCharBefore ov (idxOfSemi ov)) then ov.take (idxOfSemi ov) else ov
  else ov

/-- Full processing of a matched option value (iss.py lines 429-439):
comment stripping, then `strip()`, then normalising a literal `""` to the
empty string. -/

def procOptval (vi : Option Char) (ov : Str) : Str :=
  let ov1 := pyStrip (cutSemicolon vi ov)
  if ov1 = ['"', '"'] then [] else ov1

/-- Hex digit for `pyRepr` (lowercase, as Python's `repr`). -/

def hexDigit (n : Nat) : Char :=
  if n < 10 then Char.ofNat (48 + n) else Char.ofNat (87 + n)

/-- One character of Python 2 `repr(str)` given the chosen quote. -/

def pyReprChar (q : Char) (c : Char) : Str :=
  if c = '\\' then ['\\', '\\']
  else if c = '\n' then ['\\', 'n']
  else if c = '\r' then ['\\', 'r']
  else if c = '\t' then ['\\', 't']
  else if c = q then ['\\', q]
  else if 32 ≤ c.toNat ∧ c.toNat ≤ 126 then [c]
  else ['\\', 'x', hexDigit (c.toNat % 256 / 16), hexDigit (c.toNat % 256 % 16)]

/-- Python 2 `repr` of a byte string, as stored into `ParsingError` by
`e.append(lineno, repr(line))` (iss.py line 451): single quotes unless the
string contains `'` but no `"`. -/

def pyRepr (s : Str) : Str :=
  let q : Char := if '\'' ∈ s ∧ ¬ '"' ∈ s then '"' else '\''
  q :: (s.map (pyReprChar q)).flatten ++ [q]

/-- Python `str(list)`: `repr` of the elements, bracketed and
comma-separated. -/

def pyReprList (l : List Str) : Str :=
  '[' :: List.intercalate (", ".data) (l.map pyRepr) ++ [']']

/-- `str(value)` as the serializer applies it (iss.py lines 305, 316):
strings pass through, `None` prints as `None`, an (unjoined) list prints
via `repr` of its elements. -/

def strOfVal : Val → Str
  | .vStr s => s
  | .vNone => "None".data
  | .vList l => pyReprList l

/-- `str(value).replace('\n', '\n\t')` (iss.py lines 305, 316). -/

def nlTab (s : Str) : Str :=
  (s.map (fun c => if c = '\n' then ['\n', '\t'] else [c])).flatten

/-- `line.strip() == '' or line[0] in '#;'` (iss.py line 387). -/

def blankOrComment (l : Str) : Prop :=
  pyStrip l = [] ∨ pyHead l = '#' ∨ pyHead l = ';'

instance (l : Str) : Decidable (blankOrComment l) := by
  unfold blankOrComment; infer_instance

/-- `line.split(None, 1)[0].lower() == 'rem' and line[0] in "rR"`
(iss.py line 390). -/

def remLine (l : Str) : Prop :=
  pyLower (firstToken l) = "rem".data ∧ (pyHead l = 'r' ∨ pyHead l = 'R')

instance (l : Str) : Decidable (remLine l) := by
  unfold remLine; infer_instance

/-- The continuation branch, iss.py lines 394-397: strip the line; a
nonempty remainder is appended to `cursect[optname]` with `.append`.  If
that value is not a list (a valueless `None` or a string) Python raises
`AttributeError`; if the key is missing, `KeyError`. -/

def contLine (rs : RS) (line : Str) : RS :=
  if pyStrip line = [] then rs
  else
    match rs.optname with
    | none => rs
    | some onm =>
      match rs.curGet onm with
      | some (.vList l) => rs.curSet onm (.vList (l ++ [pyStrip line]))
      | some _ => { rs with halt := some .attrErr }
      | none => { rs with halt := some (.keyErr onm) }

/-- The section-header branch, iss.py lines 402-413: resume an existing
section, route `[DEFAULT]` to the defaults dictionary, or create a fresh
dictionary holding only `__name__`; always reset `optname`. -/

def doHeader (rs : RS) (sectname : Str) : RS :=
  if secHas rs.sections sectname then
    { rs with cursect := some (.sect sectname), optname := none }
  else if sectname = DEFAULTSECT then
    { rs with cursect := some .defaults, optname := none }
  else
    { rs with
      sections := rs.sections ++ [(sectname, [(NAMEKEY, .vStr sectname)])],
      cursect := some (.sect sectname), optname := none }

/-- The content-mode fallback, iss.py line 420:
`cursect[CONTENTBLOCK] = cursect.get(CONTENTBLOCK, '') + line`. -/

def doCapture (rs : RS) (line : Str) : RS :=
  match rs.curGet CONTENTBLOCK with
  | some (.vStr b) => rs.curSet CONTENTBLOCK (.vStr (b ++ line))
  | none => rs.curSet CONTENTBLOCK (.vStr line)
  | some _ => { rs with halt := some .typeErr }

/-- The option-line branch, iss.py lines 423-451: on a match, rstrip the
name, process the value (or store `None` when valueless) and remember the
option for continuations; on no match, append `(lineno, repr(line))` to the
accumulating `ParsingError`. -/

def doOption (strict : Bool) (rs : RS) (line : Str) : RS :=
  match optMatch strict (contOf line) with
  | some mo =>
    match mo.value with
    | some ov =>
      { rs.curSet (pyRstrip mo.oname) (.vList [procOptval mo.vi ov]) with
        optname := some (pyRstrip mo.oname) }
    | none =>
      { rs.curSet (pyRstrip mo.oname) .vNone with
        optname := some (pyRstrip mo.oname) }
  | none => { rs with errs := rs.errs ++ [(rs.lineno, pyRepr line)] }

/-- iss.py lines 399-451: not a continuation, so try a section header; a
non-header before any section is fatal; otherwise branch on
`cursect['__name__'] != SETUP` into content capture or option parsing. -/

def headerOrOption (strict : Bool) (rs : RS) (line : Str) : RS :=
  match sectMatch line with
  | some sectname => doHeader rs sectname
  | none =>
    match rs.cursect with
    | none => { rs with halt := some (.missingHeader rs.lineno line) }
    | some _ =>
      match rs.curGet NAMEKEY with
      | none => { rs with halt := some (.keyErr NAMEKEY) }
      | some v => if v = .vStr SETUP then doOption strict rs line else doCapture rs line

/-- iss.py lines 393-451 (everything after the skip checks). -/

def fallbody (strict : Bool) (rs : RS) (line : Str) : RS :=
  if pyIsSpace (pyHead line) ∧ rs.cursect.isSome ∧ rs.optname.isSome then
    contLine rs line
  else headerOrOption strict rs line

/-- One iteration of the `_read` loop body for a line already counted
(iss.py lines 386-451).  A blank or comment line is skipped before any
section or in Setup mode, captured otherwise (the `cursect['__name__']`
lookup raising `KeyError` on the defaults dictionary); a `rem` line is
always skipped; everything else goes to `fallbody`. -/

def stepA (strict : Bool) (rs : RS) (line : Str) : RS :=
  if blankOrComment line then
    match rs.cursect with
    | none => rs
    | some _ =>
      match rs.curGet NAMEKEY with
      | none => { rs with halt := some (.keyErr NAMEKEY) }
      | some v => if v = .vStr SETUP then rs else fallbody strict rs line
  else if remLine line then rs
  else fallbody strict rs line

/-- One full iteration: a pending abort freezes the state (Python has
already left the loop); otherwise count the line and run the body. -/

def step (strict : Bool) (rs : RS) (line : Str) : RS :=
  if rs.halt.isSome then rs
  else stepA strict { rs with lineno := rs.lineno + 1 } line

/-- The whole scan of `_read` over the lines of one file. -/

def runLines (strict : Bool) (rs : RS) (lines : List Str) : RS :=
  lines.foldl (step strict) rs

/-- The persistent parser state: `self._sections` and `self._defaults`. -/

structure PState where
  sections : Sects
  defaults : Od
deriving DecidableEq, Repr

/-- The loop state at the top of `_read` (iss.py lines 377-380). -/

def initRS (ps : PState) : RS :=
  { sections := ps.sections, defaults := ps.defaults, cursect := none,
    optname := none, lineno := 0, errs := [], halt := none }

/-- Python `'\n'.join(val)` (iss.py line 462). -/

def joinNL : List Str → Str
  | [] => []
  | [p] => p
  | p :: q :: ps => p ++ '\n' :: joinNL (q :: ps)

/-- The final join of iss.py lines 456-462 on one value: a pending list
becomes its `'\n'.join`. -/

def joinVal : Val → Val
  | .vList l => .vStr (joinNL l)
  | v => v

/-- The final join applied to one dictionary. -/

def joinOd (d : Od) : Od := d.map (fun kv => (kv.1, joinVal kv.2))

/-- The final join over `[self._defaults] + self._sections.values()`. -/

def joinAll (ps : PState) : PState :=
  { sections := ps.sections.map (fun nd => (nd.1, joinOd nd.2)),
    defaults := joinOd ps.defaults }

/-- The exception kinds of iss.py (lines 109-159) plus the unhandled
built-in exceptions `_read` can raise. -/

inductive PErr where
  | noSection (s : Str)
  | duplicateSection (s : Str)
  | noOption (o s : Str)
  | parsingError (fname : Str) (errors : List (Nat × Str))
  | missingSectionHeader (fname : Str) (lineno : Nat) (line : Str)
  | valueError (msg : Str)
  | keyError (k : Str)
  | attributeError
  | typeError
deriving DecidableEq, Repr

/-- `ConfigParser._read` on one file (iss.py lines 367-462): scan all
lines; an abort surfaces as its exception with the stores as mutated so
far; otherwise a nonempty error list raises the aggregated `ParsingError`
(before the join runs), and a clean scan joins the pending lists. -/

def parseOutcome (fname : Str) (rs : RS) : Option PErr × PState :=
  match rs.halt with
  | some (.missingHeader n l) =>
    (some (.missingSectionHeader fname n l), ⟨rs.sections, rs.defaults⟩)
  | some (.keyErr k) => (some (.keyError k), ⟨rs.sections, rs.defaults⟩)
  | some .attrErr => (some .attributeError, ⟨rs.sections, rs.defaults⟩)
  | some .typeErr => (some .typeError, ⟨rs.sections, rs.defaults⟩)
  | none =>
    if rs.errs = [] then (none, joinAll ⟨rs.sections, rs.defaults⟩)
    else (some (.parsingError fname rs.errs), ⟨rs.sections, rs.defaults⟩)

def parseLines (strict : Bool) (ps : PState) (fname : Str) (lines : List Str) :
    Option PErr × PState :=
  parseOutcome fname (runLines strict (initRS ps) lines)

/-- One input of a bulk `read`: a path that fails to open (`IOError`) or a
path with its lines. -/

inductive FileInput where
  | missing (name : Str)
  | found (name : Str) (lines : List Str)

/-- `ConfigParser.read` (iss.py lines 215-239): skip unopenable files,
reset `self._sections` before each parse (defaults persist), abort on the
first parse exception (with the stores as the failing parse left them),
and otherwise return the success list in order. -/

def readFiles (strict : Bool) (ps : PState) :
    List FileInput → Except (PErr × PState) (List Str × PState)
  | [] => .ok ([], ps)
  | .missing _ :: rest => readFiles strict ps rest
  | .found n ls :: rest =>
    match parseLines strict { ps with sections := [] } n ls with
    | (some e, pbad) => .error (e, pbad)
    | (none, pok) =>
      match readFiles strict pok rest with
      | .ok (ns, pf) => .ok (n :: ns, pf)
      | .error e => .error e

/-- `ConfigParser.add_section` (iss.py lines 183-195): a name lowering to
`default` raises `ValueError`; an existing name raises
`DuplicateSectionError`; otherwise a fresh empty dictionary is stored. -/

def addSection (ps : PState) (s : Str) : Except PErr PState :=
  if pyLower s = "default".data then
    .error (.valueError ("Invalid section name: ".data ++ s))
  else if secHas ps.sections s then .error (.duplicateSection s)
  else .ok { ps with sections := ps.sections ++ [(s, [])] }

/-- `ConfigParser.get` (iss.py lines 241-255): a missing section other
than `DEFAULT` raises `NoSectionError`; otherwise the section's own
options are consulted first, then the defaults; a miss everywhere raises
`NoOptionError`. -/

def cpGet (ps : PState) (sect opt : Str) : Except PErr Val :=
  match secGet? ps.sections sect with
  | none =>
    if sect ≠ DEFAULTSECT then .error (.noSection sect)
    else
      match odGet? ps.defaults opt with
      | some v => .ok v
      | none => .error (.noOption opt sect)
  | some d =>
    match odGet? d opt with
    | some v => .ok v
    | none =>
      match odGet? ps.defaults opt with
      | some v => .ok v
      | none => .error (.noOption opt sect)

/-- `_Chainmap.get` (iss.py lines 497-518), the only operation that was to
consult a caller-supplied override mapping: after resolving `sectiondict`,
line 510 tests `if vars:` where `vars` is the Python *builtin function*
(no parameter of that name exists), which is always truthy, so line 511
`vars.items()` raises `AttributeError` unconditionally.  The method is
never called anywhere in iss.py. -/

def Chainmap_get (ps : PState) (sect opt : Str) : Except PErr Val :=
  match secGet? ps.sections sect with
  | none =>
    if sect ≠ DEFAULTSECT then .error (.noSection sect) else .error .attributeError
  | some _ => .error .attributeError

/-- `ConfigParser.has_section` (iss.py lines 197-202). -/

def hasSection (ps : PState) (s : Str) : Bool := secHas ps.sections s

/-- One defaults entry of `ConfigParser.write` (iss.py line 305): a
`key = value` line with embedded newlines re-indented with a tab. -/

def wdEntry (kv : Str × Val) : Str :=
  kv.1 ++ " = ".data ++ nlTab (strOfVal kv.2) ++ ['\n']

/-- The defaults block of `ConfigParser.write` (iss.py lines 302-306):
header, the entries, then a blank separator line. -/

def writeDefaults (d : Od) : Str :=
  if d = [] then []
  else '[' :: DEFAULTSECT ++ "]\n".data ++ (d.map wdEntry).flatten ++ ['\n']

/-- One option entry of `ConfigParser.write` (iss.py lines 309-317):
`__name__` is skipped; the content sentinel of a non-Setup section is
emitted verbatim; otherwise `key=value` is written unless the value is
`None` in value-optional mode. -/

def writeEntry (strict : Bool) (sname : Str) (kv : Str × Val) : Option Str :=
  if kv.1 = NAMEKEY then none
  else if kv.1 = CONTENTBLOCK ∧ sname ≠ SETUP then some (strOfVal kv.2)
  else if kv.2 ≠ Val.vNone ∨ strict then
    some (kv.1 ++ '=' :: nlTab (strOfVal kv.2) ++ ['\n'])
  else none

/-- One section of `ConfigParser.write` (iss.py lines 307-317). -/

def writeSection (strict : Bool) (nd : Str × Od) : Str :=
  '[' :: nd.1 ++ "]\n".data ++ (nd.2.filterMap (writeEntry strict nd.1)).flatten

/-- `ConfigParser.write` (iss.py lines 300-318): the full serialized
text. -/

def writeDoc (strict : Bool) (ps : PState) : Str :=
  writeDefaults ps.defaults ++ (ps.sections.map (writeSection strict)).flatten

/-- Split a byte string back into `readline` lines: a chunk ends after
each `'\n'`; a final chunk without a newline is kept if nonempty. -/

def splitLinesAux : Str → Str → List Str
  | acc, [] => if acc = [] then [] else [acc.reverse]
  | acc, c :: cs =>
    if c = '\n' then (acc.reverse ++ ['\n']) :: splitLinesAux [] cs
    else splitLinesAux (c :: acc) cs

/-- All `readline` lines of a file whose content is `s`. -/

def splitLines (s : Str) : List Str := splitLinesAux [] s

/-- The machine state after the first `i` lines of a file have been
consumed, starting from parser state `ps`. -/

def stateAt (strict : Bool) (ps : PState) (lines : List Str) (i : Nat) : RS :=
  runLines strict (initRS ps) (lines.take i)

/-- The string stored under the ContentBlock sentinel, if any. -/

def strOfBlockVal : Option Val → Str
  | some (.vStr b) => b
  | _ => []

/-- The content block stored for section `n` of a sections store (empty
when absent). -/

def blockOfS (ss : Sects) (n : Str) : Str :=
  strOfBlockVal ((secGet? ss n).bind (fun d => odGet? d CONTENTBLOCK))

/-- The content block stored for section `n` (empty when absent). -/

def blockOf (rs : RS) (n : Str) : Str := blockOfS rs.sections n

/-- A line the scanner skips while no section header has been seen:
blank, comment, or a `rem` line. -/

def preSkip (l : Str) : Prop := blankOrComment l ∨ remLine l

instance (l : Str) : Decidable (preSkip l) := by
  unfold preSkip; infer_instance

/-- A non-blank, non-comment line skipped by the `rem` rule (the only way
a line is skipped once a section is current). -/

def skipRem (l : Str) : Prop := ¬ blankOrComment l ∧ remLine l

instance (l : Str) : Decidable (skipRem l) := by
  unfold skipRem; infer_instance

instance {ε α : Type} [DecidableEq ε] [DecidableEq α] : DecidableEq (Except ε α)
  | .ok a, .ok b =>
    if h : a = b then isTrue (by rw [h]) else isFalse (by intro c; cases c; exact h rfl)
  | .error a, .error b =>
    if h : a = b then isTrue (by rw [h]) else isFalse (by intro c; cases c; exact h rfl)
  | .ok _, .error _ => isFalse (by intro c; cases c)
  | .error _, .ok _ => isFalse (by intro c; cases c)

/-- Whether an `add_section` outcome is a `DuplicateSectionError`. -/

def isDuplicateSectionErr : Except PErr PState → Bool
  | .error (.duplicateSection _) => true
  | _ => false

/-- The exact condition under which one iteration of the `_read` loop
appends a `(lineno, repr(line))` pair to the accumulating `ParsingError`
(iss.py lines 444-451): the line is not skipped as blank/comment or `rem`,
is not a continuation, is not a section header, a section is current, the
classifier routes to Setup mode, and the option regex fails. -/

def malCond (strict : Bool) (rs : RS) (l : Str) : Prop :=
  ¬ blankOrComment l ∧ ¬ remLine l ∧
  ¬ (pyIsSpace (pyHead l) = true ∧ rs.cursect.isSome = true ∧
      rs.optname.isSome = true) ∧
  sectMatch l = none ∧ rs.cursect.isSome = true ∧
  rs.curGet NAMEKEY = some (.vStr SETUP) ∧
  optMatch strict (contOf l) = none

instance (strict : Bool) (rs : RS) (l : Str) : Decidable (malCond strict rs l) := by
  unfold malCond; infer_instance

/-- Line `i` (0-based) of the file is one the scanner reports as
malformed, judged against the loop state reached before that line. -/

def malformedAt (strict : Bool) (ps : PState) (lines : List Str) (i : Nat) : Prop :=
  malCond strict (stateAt strict ps lines i) (lines.getD i [])

instance (strict : Bool) (ps : PState) (lines : List Str) (i : Nat) :
    Decidable (malformedAt strict ps lines i) := by
  unfold malformedAt; infer_instance

/-- The ordered list of `(1-based line number, repr(line))` pairs the scan
accumulates: one entry per malformed line, in file order. -/

def errList (strict : Bool) (ps : PState) (lines : List Str) : List (Nat × Str) :=
  (List.range lines.length).filterMap (fun i =>
    if malformedAt strict ps lines i
    then some (i + 1, pyRepr (lines.getD i []))
    else none)

/-- A description of one section of a document as the claim sees it: the
structured `Setup` section with its option/value pairs, or a content-mode
section with its (optional) verbatim block. -/

inductive SectDesc where
  | setup (opts : List (Str × Str))
  | content (n : Str) (b : Option Str)

/-- The serialized option line `k=v\n` that `ConfigParser.write` emits for
a Setup option whose value has no newline (iss.py line 316). -/

def optLineOf (k v : Str) : Str := k ++ '=' :: (v ++ ['\n'])

/-- The serialized header line `[n]\n` (iss.py line 308). -/

def headerLineOf (n : Str) : Str := '[' :: (n ++ "]\n".data)

/-- The joined Setup dictionary a parse produces: `__name__` first, then
the options in order. -/

def setupOd (opts : List (Str × Str)) : Od :=
  (NAMEKEY, .vStr SETUP) :: opts.map (fun kv => (kv.1, Val.vStr kv.2))

/-- The named dictionary of a described section in a loaded document. -/

def odOfDesc : SectDesc → Str × Od
  | .setup opts => (SETUP, setupOd opts)
  | .content n b =>
    (n, (NAMEKEY, .vStr n) ::
      (match b with
       | none => []
       | some s => [(CONTENTBLOCK, Val.vStr s)]))

/-- The same dictionary before the end-of-input join: Setup option values
still sit in their pending one-element lists. -/

def rawOdOfDesc : SectDesc → Str × Od
  | .setup opts =>
    (SETUP, (NAMEKEY, .vStr SETUP) :: opts.map (fun kv => (kv.1, Val.vList [kv.2])))
  | .content n b =>
    (n, (NAMEKEY, .vStr n) ::
      (match b with
       | none => []
       | some s => [(CONTENTBLOCK, Val.vStr s)]))

/-- The document made of the described sections (defaults empty). -/

def psOfDescs (ds : List SectDesc) : PState :=
  ⟨ds.map odOfDesc, []⟩

/-- A Setup option pair whose serialized line scans back to exactly the
same pair: the line is not skipped, not a continuation, not a header, the
option regex recovers the key and value, and the value processing of
iss.py lines 429-439 leaves the value unchanged. -/

def setupOptWF (strict : Bool) (k v : Str) : Prop :=
  '\n' ∉ k ∧ '\n' ∉ v ∧
  ¬ blankOrComment (optLineOf k v) ∧
  ¬ remLine (optLineOf k v) ∧
  pyIsSpace (pyHead (optLineOf k v)) = false ∧
  sectMatch (optLineOf k v) = none ∧
  optMatch strict (contOf (optLineOf k v)) = some ⟨k, some '=', some v⟩ ∧
  pyRstrip k = k ∧
  procOptval (some '=') v = v

instance (strict : Bool) (k v : Str) : Decidable (setupOptWF strict k v) := by
  unfold setupOptWF; infer_instance

/-- A content-mode section name whose header line scans back to it. -/

def contentWF (n : Str) : Prop :=
  '\n' ∉ n ∧ sectMatch (headerLineOf n) = some n ∧ n ≠ DEFAULTSECT ∧ n ≠ SETUP

instance (n : Str) : Decidable (contentWF n) := by
  unfold contentWF; infer_instance

/-- Well-formedness of one described section for the round trip: Setup
options must be distinct, non-reserved and line-stable; a content block
must be nonempty, newline-terminated, and hold no line the scanner treats
as a header or a `rem` line. -/

def descWF (strict : Bool) : SectDesc → Prop
  | .setup opts =>
    (∀ kv ∈ opts, setupOptWF strict kv.1 kv.2) ∧
    NAMEKEY ∉ opts.map Prod.fst ∧ (opts.map Prod.fst).Nodup
  | .content n none => contentWF n
  | .content n (some s) =>
    contentWF n ∧ s ≠ [] ∧ s.getLast? = some '\n' ∧
    ∀ l ∈ splitLines s, sectMatch l = none ∧ ¬ remLine l

instance (strict : Bool) : (dd : SectDesc) → Decidable (descWF strict dd)
  | .setup opts => by unfold descWF; infer_instance
  | .content n none => by unfold descWF; infer_instance
  | .content n (some s) => by unfold descWF; infer_instance

/-! ## Lemmas and claim theorems -/

lemma runLines_nil (strict : Bool) (rs : RS) : runLines strict rs [] = rs := rfl

lemma runLines_cons (strict : Bool) (rs : RS) (l : Str) (ls : List Str) :
    runLines strict rs (l :: ls) = runLines strict (step strict rs l) ls := rfl

lemma runLines_append (strict : Bool) (rs : RS) (ls₁ ls₂ : List Str) :
    runLines strict rs (ls₁ ++ ls₂) = runLines strict (runLines strict rs ls₁) ls₂ :=
  List.foldl_append ..

lemma step_halted (strict : Bool) (rs : RS) (l : Str) (h : rs.halt.isSome) :
    step strict rs l = rs := by
  unfold step; simp [h]

lemma runLines_halted (strict : Bool) (rs : RS) (ls : List Str) (h : rs.halt.isSome) :
    runLines strict rs ls = rs := by
  induction ls with
  | nil => rfl
  | cons l ls ih => rw [runLines_cons, step_halted strict rs l h]; exact ih

lemma halt_none_of_step (strict : Bool) (rs : RS) (l : Str)
    (h : (step strict rs l).halt = none) : rs.halt = none := by
  by_contra hne
  have hs : rs.halt.isSome := Option.ne_none_iff_isSome.mp hne
  rw [step_halted strict rs l hs] at h
  rw [h] at hs; simp at hs

lemma halt_none_of_runLines (strict : Bool) (rs : RS) (ls : List Str)
    (h : (runLines strict rs ls).halt = none) : rs.halt = none := by
  induction ls generalizing rs with
  | nil => exact h
  | cons l ls ih =>
    rw [runLines_cons] at h
    exact halt_none_of_step strict rs l (ih _ h)

lemma step_eq_stepA (strict : Bool) (rs : RS) (l : Str) (h : rs.halt = none) :
    step strict rs l = stepA strict { rs with lineno := rs.lineno + 1 } l := by
  unfold step; simp [h]

lemma stepA_blank_none (strict : Bool) (rs : RS) (l : Str)
    (hb : blankOrComment l) (hc : rs.cursect = none) :
    stepA strict rs l = rs := by
  unfold stepA; rw [if_pos hb]; simp only [hc]

lemma stepA_blank_setup (strict : Bool) (rs : RS) (l : Str) (c : CurRef)
    (hb : blankOrComment l) (hc : rs.cursect = some c)
    (hn : rs.curGet NAMEKEY = some (.vStr SETUP)) :
    stepA strict rs l = rs := by
  unfold stepA; rw [if_pos hb]; simp only [hc, hn, if_true]

lemma stepA_blank_keyerr (strict : Bool) (rs : RS) (l : Str) (c : CurRef)
    (hb : blankOrComment l) (hc : rs.cursect = some c)
    (hn : rs.curGet NAMEKEY = none) :
    stepA strict rs l = { rs with halt := some (.keyErr NAMEKEY) } := by
  unfold stepA; rw [if_pos hb]; simp only [hc, hn]

lemma stepA_blank_content (strict : Bool) (rs : RS) (l : Str) (c : CurRef) (v : Val)
    (hb : blankOrComment l) (hc : rs.cursect = some c)
    (hn : rs.curGet NAMEKEY = some v) (hv : v ≠ .vStr SETUP) :
    stepA strict rs l = fallbody strict rs l := by
  unfold stepA; rw [if_pos hb]; simp only [hc, hn, if_neg hv]

lemma stepA_rem (strict : Bool) (rs : RS) (l : Str)
    (hb : ¬ blankOrComment l) (hr : remLine l) :
    stepA strict rs l = rs := by
  unfold stepA; rw [if_neg hb, if_pos hr]

lemma stepA_fall (strict : Bool) (rs : RS) (l : Str)
    (hb : ¬ blankOrComment l) (hr : ¬ remLine l) :
    stepA strict rs l = fallbody strict rs l := by
  unfold stepA; rw [if_neg hb, if_neg hr]

lemma fallbody_cont (strict : Bool) (rs : RS) (l : Str)
    (h : pyIsSpace (pyHead l) ∧ rs.cursect.isSome ∧ rs.optname.isSome) :
    fallbody strict rs l = contLine rs l := by
  unfold fallbody; rw [if_pos ⟨h.1, h.2.1, h.2.2⟩]

lemma fallbody_noncont (strict : Bool) (rs : RS) (l : Str)
    (h : ¬ (pyIsSpace (pyHead l) ∧ rs.cursect.isSome ∧ rs.optname.isSome)) :
    fallbody strict rs l = headerOrOption strict rs l := by
  unfold fallbody; rw [if_neg h]

lemma headerOrOption_header (strict : Bool) (rs : RS) (l : Str) (n : Str)
    (hs : sectMatch l = some n) :
    headerOrOption strict rs l = doHeader rs n := by
  unfold headerOrOption; simp only [hs]

lemma headerOrOption_missing (strict : Bool) (rs : RS) (l : Str)
    (hs : sectMatch l = none) (hc : rs.cursect = none) :
    headerOrOption strict rs l = { rs with halt := some (.missingHeader rs.lineno l) } := by
  unfold headerOrOption; simp only [hs, hc]

lemma headerOrOption_keyerr (strict : Bool) (rs : RS) (l : Str) (c : CurRef)
    (hs : sectMatch l = none) (hc : rs.cursect = some c)
    (hn : rs.curGet NAMEKEY = none) :
    headerOrOption strict rs l = { rs with halt := some (.keyErr NAMEKEY) } := by
  unfold headerOrOption; simp only [hs, hc, hn]

lemma headerOrOption_option (strict : Bool) (rs : RS) (l : Str) (c : CurRef)
    (hs : sectMatch l = none) (hc : rs.cursect = some c)
    (hn : rs.curGet NAMEKEY = some (.vStr SETUP)) :
    headerOrOption strict rs l = doOption strict rs l := by
  unfold headerOrOption; simp only [hs, hc, hn, if_true]

lemma headerOrOption_capture (strict : Bool) (rs : RS) (l : Str) (c : CurRef) (v : Val)
    (hs : sectMatch l = none) (hc : rs.cursect = some c)
    (hn : rs.curGet NAMEKEY = some v) (hv : v ≠ .vStr SETUP) :
    headerOrOption strict rs l = doCapture rs l := by
  unfold headerOrOption; simp only [hs, hc, hn, if_neg hv]

/-- A `preSkip` line is ignored while no section has been seen. -/
lemma step_preskip (strict : Bool) (rs : RS) (l : Str)
    (h : rs.halt = none) (hc : rs.cursect = none) (hsk : preSkip l) :
    step strict rs l = { rs with lineno := rs.lineno + 1 } := by
  rw [step_eq_stepA strict rs l h]
  by_cases hb : blankOrComment l
  · exact stepA_blank_none strict _ l hb hc
  · rcases hsk with hsk | hsk
    · exact absurd hsk hb
    · exact stepA_rem strict _ l hb hsk

/-- A run of `preSkip` lines before any section only advances the line
counter. -/
lemma runLines_preskip (strict : Bool) (pre : List Str) (rs : RS)
    (h : rs.halt = none) (hc : rs.cursect = none) (hsk : ∀ x ∈ pre, preSkip x) :
    runLines strict rs pre = { rs with lineno := rs.lineno + pre.length } := by
  induction pre generalizing rs with
  | nil => simp [runLines_nil]
  | cons x pre ih =>
    rw [runLines_cons, step_preskip strict rs x h hc (hsk x (by simp))]
    rw [ih { rs with lineno := rs.lineno + 1 } h hc (fun y hy => hsk y (by simp [hy]))]
    simp; omega

/-- C5, counterexample: adding the reserved name `DEFAULT` does fail and
leaves the document alone, but the rejection is a `ValueError`
(iss.py line 191), not a DuplicateSection-class rejection as claimed. -/
theorem C5_counterexample :
    addSection ⟨[], []⟩ "DEFAULT".data
      = .error (.valueError ("Invalid section name: ".data ++ "DEFAULT".data)) ∧
    isDuplicateSectionErr (addSection ⟨[], []⟩ "DEFAULT".data) = false := by
  decide

/-- C5, amended: a name that case-insensitively equals `default` is
rejected with `ValueError`; a name already present (and not lowering to
`default`) is rejected with `DuplicateSectionError`; in both cases the
document is unchanged — only an accepted name mutates it, appending a
fresh empty section dictionary. -/
theorem C5_add_section_amended (ps : PState) (s : Str) :
    (pyLower s = "default".data →
      addSection ps s = .error (.valueError ("Invalid section name: ".data ++ s))) ∧
    (pyLower s ≠ "default".data → secHas ps.sections s = true →
      addSection ps s = .error (.duplicateSection s)) ∧
    (pyLower s ≠ "default".data → secHas ps.sections s = false →
      addSection ps s = .ok ⟨ps.sections ++ [(s, [])], ps.defaults⟩) := by
  unfold addSection
  refine ⟨fun h => by simp [h], fun h1 h2 => by simp [h1, h2], fun h1 h2 => by simp [h1, h2]⟩

/-- C5, witness: the amended statement at the inputs `Default` (reserved,
case-insensitive), a duplicate `A`, and a fresh `B`. -/
theorem C5_add_section_witness :
    addSection ⟨[], []⟩ "Default".data
        = .error (.valueError ("Invalid section name: ".data ++ "Default".data)) ∧
    addSection ⟨[("A".data, [])], []⟩ "A".data = .error (.duplicateSection "A".data) ∧
    addSection ⟨[], []⟩ "B".data = .ok ⟨[("B".data, [])], []⟩ :=
  ⟨(C5_add_section_amended ⟨[], []⟩ "Default".data).1 (by decide),
   (C5_add_section_amended ⟨[("A".data, [])], []⟩ "A".data).2.1 (by decide) (by decide),
   by simpa using (C5_add_section_amended ⟨[], []⟩ "B".data).2.2 (by decide) (by decide)⟩

/-- C4, counterexample: `_Chainmap.get`, the only lookup written to
consult a caller-supplied override mapping, never resolves anything: on a
document whose `Setup` section holds `a = 1` it raises `AttributeError`
(line 511 calls `.items()` on the `vars` builtin) instead of returning the
first hit `1`. -/
theorem C4_counterexample :
    Chainmap_get ⟨[("Setup".data, [(NAMEKEY, .vStr "Setup".data),
        ("a".data, .vStr "1".data)])], []⟩ "Setup".data "a".data
      = .error .attributeError ∧
    Chainmap_get ⟨[("Setup".data, [(NAMEKEY, .vStr "Setup".data),
        ("a".data, .vStr "1".data)])], []⟩ "Setup".data "a".data
      ≠ .ok (.vStr "1".data) := by
  decide

/-- C4, amended: the lookup operation actually used, `ConfigParser.get`,
takes no override mapping and resolves through two tiers, most specific
first: the section's own options, then the defaults overlay, returning the
first hit.  It raises NoSection when the section is absent and is not the
defaults pseudo-section, and NoOption when the option is absent from both
tiers; for the `DEFAULT` pseudo-section only the defaults tier is
consulted. -/
theorem C4_lookup_amended (ps : PState) (sect opt : Str) :
    (secGet? ps.sections sect = none → sect ≠ DEFAULTSECT →
      cpGet ps sect opt = .error (.noSection sect)) ∧
    (∀ d v, secGet? ps.sections sect = some d → odGet? d opt = some v →
      cpGet ps sect opt = .ok v) ∧
    (∀ d v, secGet? ps.sections sect = some d → odGet? d opt = none →
      odGet? ps.defaults opt = some v → cpGet ps sect opt = .ok v) ∧
    (∀ d, secGet? ps.sections sect = some d → odGet? d opt = none →
      odGet? ps.defaults opt = none → cpGet ps sect opt = .error (.noOption opt sect)) ∧
    (∀ v, secGet? ps.sections sect = none → sect = DEFAULTSECT →
      odGet? ps.defaults opt = some v → cpGet ps sect opt = .ok v) ∧
    (secGet? ps.sections sect = none → sect = DEFAULTSECT →
      odGet? ps.defaults opt = none → cpGet ps sect opt = .error (.noOption opt sect)) := by
  unfold cpGet
  refine ⟨fun h1 h2 => by simp [h1, h2],
          fun d v h1 h2 => by simp [h1, h2],
          fun d v h1 h2 h3 => by simp [h1, h2, h3],
          fun d h1 h2 h3 => by simp [h1, h2, h3],
          fun v h1 h2 h3 => by subst h2; simp [h1, h3],
          fun h1 h2 h3 => by subst h2; simp [h1, h3]⟩

/-- C4, witness: the amended statement on a concrete document — section
value shadows the defaults, the defaults fill a missing option, a missing
section raises NoSection, a miss everywhere raises NoOption. -/
theorem C4_lookup_witness :
    cpGet ⟨[("Setup".data, [("a".data, .vStr "1".data)])], [("a".data, .vStr "d".data),
        ("b".data, .vStr "2".data)]⟩ "Setup".data "a".data = .ok (.vStr "1".data) ∧
    cpGet ⟨[("Setup".data, [("a".data, .vStr "1".data)])], [("a".data, .vStr "d".data),
        ("b".data, .vStr "2".data)]⟩ "Setup".data "b".data = .ok (.vStr "2".data) ∧
    cpGet ⟨[("Setup".data, [("a".data, .vStr "1".data)])], []⟩ "Nope".data "a".data
      = .error (.noSection "Nope".data) ∧
    cpGet ⟨[("Setup".data, [("a".data, .vStr "1".data)])], []⟩ "Setup".data "z".data
      = .error (.noOption "z".data "Setup".data) :=
  ⟨(C4_lookup_amended ⟨[("Setup".data, [("a".data, .vStr "1".data)])], [("a".data, .vStr "d".data),
        ("b".data, .vStr "2".data)]⟩ "Setup".data "a".data).2.1 [("a".data, .vStr "1".data)]
        (.vStr "1".data) (by decide) (by decide),
   (C4_lookup_amended ⟨[("Setup".data, [("a".data, .vStr "1".data)])], [("a".data, .vStr "d".data),
        ("b".data, .vStr "2".data)]⟩ "Setup".data "b".data).2.2.1 [("a".data, .vStr "1".data)]
        (.vStr "2".data) (by decide) (by decide) (by decide),
   (C4_lookup_amended ⟨[("Setup".data, [("a".data, .vStr "1".data)])], []⟩ "Nope".data
        "a".data).1 (by decide) (by decide),
   (C4_lookup_amended ⟨[("Setup".data, [("a".data, .vStr "1".data)])], []⟩ "Setup".data
        "z".data).2.2.2.1 [("a".data, .vStr "1".data)] (by decide) (by decide) (by decide)⟩

/-- C8, counterexample: in the file `rem x\nfoo\n` the first non-blank,
non-comment line is `rem x` at line 1 and is not a section header, yet
parsing raises `MissingSectionHeaderError` for line 2, because `rem` lines
are skipped even before any header (iss.py line 390). -/
theorem C8_counterexample :
    (parseLines true ⟨[], []⟩ "f".data ["rem x\n".data, "foo\n".data]).1
      = some (.missingSectionHeader "f".data 2 "foo\n".data) ∧
    (parseLines true ⟨[], []⟩ "f".data ["rem x\n".data, "foo\n".data]).1
      ≠ some (.missingSectionHeader "f".data 1 "rem x\n".data) := by
  decide

/-- C8, amended: for a file whose first non-blank, non-comment, non-`rem`
line is not a section header, parsing raises `MissingSectionHeaderError`
immediately at that line, carrying its exact 1-based line number and raw
text; the stores are untouched — no content capture and no error
aggregation happens for that file. -/
theorem C8_missing_header_amended (strict : Bool) (ps : PState) (fname : Str)
    (pre : List Str) (l : Str) (rest : List Str)
    (hsk : ∀ x ∈ pre, preSkip x) (hl : ¬ preSkip l) (hh : sectMatch l = none) :
    parseLines strict ps fname (pre ++ l :: rest)
      = (some (.missingSectionHeader fname (pre.length + 1) l),
         ⟨ps.sections, ps.defaults⟩) := by
  have hb : ¬ blankOrComment l := fun h => hl (Or.inl h)
  have hr : ¬ remLine l := fun h => hl (Or.inr h)
  have h1 : runLines strict (initRS ps) pre = { initRS ps with lineno := pre.length } := by
    have h := runLines_preskip strict pre (initRS ps) rfl rfl hsk
    simpa [initRS] using h
  have h2 : step strict { initRS ps with lineno := pre.length } l
      = ⟨ps.sections, ps.defaults, none, none, pre.length + 1, [],
         some (.missingHeader (pre.length + 1) l)⟩ := by
    rw [step_eq_stepA _ _ _ rfl]
    rw [stepA_fall _ _ _ hb hr]
    rw [fallbody_noncont _ _ _ (by simp [initRS])]
    rw [headerOrOption_missing _ _ _ hh rfl]
    rfl
  unfold parseLines parseOutcome
  rw [runLines_append, h1, runLines_cons, h2,
    runLines_halted _ _ _ (by simp)]

/-- C8, witness: the amended statement on a concrete file whose lines 1-3
are a comment, a blank line and a `rem` line, and whose line 4 `a b\n` is
the first line the scanner cannot skip. -/
theorem C8_missing_header_witness :
    parseLines true ⟨[], []⟩ "f".data
        ["# c\n".data, "\n".data, "rem x\n".data, "a b\n".data, "[Setup]\n".data]
      = (some (.missingSectionHeader "f".data 4 "a b\n".data), ⟨[], []⟩) := by
  have h := C8_missing_header_amended true ⟨[], []⟩ "f".data
      ["# c\n".data, "\n".data, "rem x\n".data] "a b\n".data ["[Setup]\n".data]
      (by decide) (by decide) (by decide)
  simpa using h

lemma idxOfSemi_append (a b : Str) (ha : ';' ∉ a) :
    idxOfSemi (a ++ ';' :: b) = a.length := by
  induction a with
  | nil => simp [idxOfSemi]
  | cons c a ih =>
    have hc : c ≠ ';' := fun h => ha (by simp [h])
    show (if c = ';' then 0 else idxOfSemi (a ++ ';' :: b) + 1) = a.length + 1
    rw [if_neg hc, ih (fun h => ha (List.mem_cons_of_mem c h))]

/-- C9, counterexample: for the line `key= ;abc \n` the value's first `;`
is its first character, so no character precedes it and the claim says the
value is kept; the code instead checks `optval[-1]` (Python negative
indexing), finds the trailing space, and discards everything, storing the
empty string rather than `;abc`. -/
theorem C9_counterexample :
    (parseLines true ⟨[], []⟩ "f".data
        ["[Setup]\n".data, "key= ;abc \n".data]).1 = none ∧
    cpGet (parseLines true ⟨[], []⟩ "f".data
        ["[Setup]\n".data, "key= ;abc \n".data]).2 SETUP "key".data
      = .ok (.vStr []) ∧
    Val.vStr [] ≠ Val.vStr ";abc".data := by
  refine ⟨by decide, by decide, by decide⟩

/-- C9, amended: writing the matched value as `a ++ ';' :: b` with no `;`
in `a` (so the `;` shown is the first one): for `=`/`:`-separated values,
everything from the first `;` on is discarded exactly when the character
immediately before it is whitespace, except that when the `;` is the very
first character the code consults `optval[-1]`, the value's last character
(Python negative indexing), instead.  The two spec examples behave as
stated: `key=value ; comment` yields `value` and
`key=value;nospacebefore` is kept unchanged. -/
theorem C9_comment_strip_amended (vi : Char) (ov a b : Str)
    (hvi : vi = '=' ∨ vi = ':') (hsplit : ov = a ++ ';' :: b) (ha : ';' ∉ a) :
    ((a = [] → pyIsSpace (ov.getLastD (Char.ofNat 0)) = true →
        cutSemicolon (some vi) ov = []) ∧
     (a = [] → pyIsSpace (ov.getLastD (Char.ofNat 0)) = false →
        cutSemicolon (some vi) ov = ov) ∧
     (∀ a' c, a = a' ++ [c] → pyIsSpace c = true → cutSemicolon (some vi) ov = a) ∧
     (∀ a' c, a = a' ++ [c] → pyIsSpace c = false → cutSemicolon (some vi) ov = ov)) ∧
    cpGet (parseLines true ⟨[], []⟩ "f".data
        ["[Setup]\n".data, "key=value ; comment\n".data]).2 SETUP "key".data
      = .ok (.vStr "value".data) ∧
    cpGet (parseLines true ⟨[], []⟩ "f".data
        ["[Setup]\n".data, "key=value;nospacebefore\n".data]).2 SETUP "key".data
      = .ok (.vStr "value;nospacebefore".data) := by
  have hvi' : (some vi = some '=' ∨ some vi = some ':') := by
    rcases hvi with h | h <;> [left; right] <;> rw [h]
  have hmem : ';' ∈ ov := by rw [hsplit]; simp
  have hpos : idxOfSemi ov = a.length := by rw [hsplit]; exact idxOfSemi_append a b ha
  have hchar : ∀ a' c, a = a' ++ [c] → pyCharBefore ov (idxOfSemi ov) = c := by
    intro a' c hsnoc
    have hlen : a.length ≠ 0 := by rw [hsnoc]; simp
    unfold pyCharBefore
    rw [hpos, if_neg hlen, hsplit]
    rw [List.getD_append _ _ _ _ (Nat.sub_lt (Nat.pos_of_ne_zero hlen) one_pos)]
    rw [hsnoc]
    have hidx : (a' ++ [c]).length - 1 = a'.length := by simp
    rw [hidx, List.getD_append_right _ _ _ _ (le_refl _)]
    simp [List.getD]
  refine ⟨⟨?_, ?_, ?_, ?_⟩, by decide, by decide⟩
  · intro hnil hsp
    have h0 : pyCharBefore ov (idxOfSemi ov) = ov.getLastD (Char.ofNat 0) := by
      unfold pyCharBefore
      rw [hpos, hnil, List.length_nil, if_pos rfl]
    unfold cutSemicolon
    rw [if_pos ⟨hvi', hmem⟩, h0, hsp, if_pos rfl, hpos, hnil]
    simp
  · intro hnil hsp
    have h0 : pyCharBefore ov (idxOfSemi ov) = ov.getLastD (Char.ofNat 0) := by
      unfold pyCharBefore
      rw [hpos, hnil, List.length_nil, if_pos rfl]
    unfold cutSemicolon
    rw [if_pos ⟨hvi', hmem⟩, h0, hsp]
    simp
  · intro a' c hsnoc hsp
    unfold cutSemicolon
    rw [if_pos ⟨hvi', hmem⟩, hchar a' c hsnoc, hsp, if_pos rfl, hpos, hsplit]
    exact List.take_left a (';' :: b)
  · intro a' c hsnoc hsp
    unfold cutSemicolon
    rw [if_pos ⟨hvi', hmem⟩, hchar a' c hsnoc, hsp]
    simp

/-- C9, witness: the amended rule applied to the values of the two spec
examples and to the wrap-around case ` ;abc ` seen through the parser. -/
theorem C9_comment_strip_witness :
    cutSemicolon (some '=') "value ; comment".data = "value ".data ∧
    cutSemicolon (some '=') "value;nospacebefore".data = "value;nospacebefore".data ∧
    cutSemicolon (some '=') ";abc ".data = [] := by
  refine ⟨?_, ?_, ?_⟩
  · have h := ((C9_comment_strip_amended '=' "value ; comment".data "value ".data
        " comment".data (Or.inl rfl) (by decide) (by decide)).1).2.2.1
        "value".data ' ' (by decide) (by decide)
    simpa using h
  · have h := ((C9_comment_strip_amended '=' "value;nospacebefore".data "value".data
        "nospacebefore".data (Or.inl rfl) (by decide) (by decide)).1).2.2.2
        "valu".data 'e' (by decide) (by decide)
    simpa using h
  · have h := ((C9_comment_strip_amended '=' ";abc ".data [] "abc ".data
        (Or.inl rfl) (by decide) (by decide)).1).1 rfl (by decide)
    simpa using h

lemma splitLinesAux_no_nl (b : Str) (hb : '\n' ∉ b) :
    ∀ acc rest, splitLinesAux acc (b ++ rest) = splitLinesAux (b.reverse ++ acc) rest := by
  induction b with
  | nil => intro acc rest; simp
  | cons c b ih =>
    intro acc rest
    have hc : c ≠ '\n' := fun h => hb (by simp [h])
    show (if c = '\n' then _ else splitLinesAux (c :: acc) (b ++ rest)) = _
    rw [if_neg hc, ih (fun h => hb (List.mem_cons_of_mem c h)) (c :: acc) rest]
    simp

lemma splitLinesAux_nil (acc : Str) :
    splitLinesAux acc [] = if acc = [] then [] else [acc.reverse] := rfl

lemma splitLinesAux_cons (acc : Str) (c : Char) (cs : Str) :
    splitLinesAux acc (c :: cs) =
      if c = '\n' then (acc.reverse ++ ['\n']) :: splitLinesAux [] cs
      else splitLinesAux (c :: acc) cs := rfl

lemma splitLines_line_append (b s : Str) (hb : '\n' ∉ b) :
    splitLines ((b ++ ['\n']) ++ s) = (b ++ ['\n']) :: splitLines s := by
  unfold splitLines
  rw [List.append_assoc, splitLinesAux_no_nl b hb [] (['\n'] ++ s), List.singleton_append,
    splitLinesAux_cons, if_pos rfl]
  simp

lemma splitLines_no_nl (b : Str) (hb : '\n' ∉ b) (hne : b ≠ []) :
    splitLines b = [b] := by
  unfold splitLines
  have h := splitLinesAux_no_nl b hb [] []
  rw [List.append_nil] at h
  rw [h, splitLinesAux_nil, if_neg (by simpa using hne)]
  simp

/-- Splitting distributes over a newline-terminated prefix. -/
lemma splitLinesAux_append_term :
    ∀ (s₁ acc : Str), s₁.getLast? = some '\n' →
      ∀ s₂, splitLinesAux acc (s₁ ++ s₂) = splitLinesAux acc s₁ ++ splitLinesAux [] s₂
  | [], acc, h, s₂ => by simp at h
  | [c], acc, h, s₂ => by
    have hc : c = '\n' := by simpa using h
    subst hc
    rw [List.singleton_append, splitLinesAux_cons, splitLinesAux_cons, if_pos rfl,
      if_pos rfl, splitLinesAux_nil]
    simp
  | c :: c' :: s₁, acc, h, s₂ => by
    have h' : (c' :: s₁).getLast? = some '\n' := by rw [← h]; rfl
    rw [List.cons_append, splitLinesAux_cons, splitLinesAux_cons]
    by_cases hc : c = '\n'
    · rw [if_pos hc, if_pos hc]
      have ihx := splitLinesAux_append_term (c' :: s₁) [] h' s₂
      simp only [List.cons_append] at ihx ⊢
      rw [ihx]
    · rw [if_neg hc, if_neg hc]
      have ihx := splitLinesAux_append_term (c' :: s₁) (c :: acc) h' s₂
      simp only [List.cons_append] at ihx ⊢
      rw [ihx]

lemma splitLines_append_term (s₁ : Str) (h : s₁.getLast? = some '\n') (s₂ : Str) :
    splitLines (s₁ ++ s₂) = splitLines s₁ ++ splitLines s₂ :=
  splitLinesAux_append_term s₁ [] h s₂

lemma splitLines_nil : splitLines [] = [] := rfl

lemma pyHead_append (p t : Str) (h : p ≠ []) : pyHead (p ++ t) = pyHead p := by
  cases p with
  | nil => exact absurd rfl h
  | cons c cs => rfl

lemma pyRstrip_nil_iff (l : Str) : pyRstrip l = [] ↔ ∀ c ∈ l, pyIsSpace c := by
  unfold pyRstrip
  rw [List.reverse_eq_nil_iff, List.dropWhile_eq_nil_iff]
  constructor
  · intro h c hc; exact h c (List.mem_reverse.mpr hc)
  · intro h c hc; exact h c (List.mem_reverse.mp hc)

lemma pyStrip_nil_iff (l : Str) : pyStrip l = [] ↔ ∀ c ∈ l, pyIsSpace c := by
  unfold pyStrip pyLstrip
  rw [List.dropWhile_eq_nil_iff]
  constructor
  · intro h
    have hr : pyRstrip l = [] := by
      by_contra hne
      have hne' : (l.reverse.dropWhile pyIsSpace) ≠ [] := by
        intro hx
        exact hne (by unfold pyRstrip; rw [hx]; rfl)
      have hlast := List.head_dropWhile_not pyIsSpace l.reverse hne'
      have hmem : (l.reverse.dropWhile pyIsSpace).head hne' ∈ pyRstrip l := by
        unfold pyRstrip
        rw [List.mem_reverse]
        exact List.head_mem hne'
      rw [h _ hmem] at hlast
      simp at hlast
    exact (pyRstrip_nil_iff l).mp hr
  · intro h c hc
    apply h
    unfold pyRstrip at hc
    rw [List.mem_reverse] at hc
    exact List.mem_reverse.mp ((List.dropWhile_sublist _).subset hc)

lemma pyHead_not_bracket_of_blank (l : Str) (h : pyStrip l = []) : pyHead l ≠ '[' := by
  cases l with
  | nil => decide
  | cons c cs =>
    have hc := (pyStrip_nil_iff (c :: cs)).mp h c (by simp)
    intro hx
    rw [show pyHead (c :: cs) = c from rfl] at hx
    subst hx
    simp [pyIsSpace] at hc

lemma sectMatch_cons (c : Char) (cs : Str) :
    sectMatch (c :: cs) =
      if c = '[' then
        match cs.dropWhile (fun x => x ≠ ']') with
        | ']' :: _ =>
          if cs.takeWhile (fun x => x ≠ ']') = [] then none
          else some (cs.takeWhile (fun x => x ≠ ']'))
        | _ => none
      else none := rfl

/-- A line whose first character is not `[` never matches `SECTCRE`. -/
lemma sectMatch_of_head (l : Str) (h : pyHead l ≠ '[') : sectMatch l = none := by
  cases l with
  | nil => rfl
  | cons c cs =>
    have hx : c ≠ '[' := h
    rw [sectMatch_cons, if_neg hx]

/-- A blank or comment line never matches `SECTCRE`. -/
lemma sectMatch_of_blankOrComment (l : Str) (h : blankOrComment l) : sectMatch l = none := by
  apply sectMatch_of_head
  rcases h with h | h | h
  · exact pyHead_not_bracket_of_blank l h
  · rw [h]; decide
  · rw [h]; decide

/-- Re-concatenating the split lines gives the original text back. -/
lemma splitLines_flatten : ∀ s : Str, (splitLines s).flatten = s := by
  suffices haux : ∀ (s acc : Str), (splitLinesAux acc s).flatten = acc.reverse ++ s by
    intro s; simpa using haux s []
  intro s
  induction s with
  | nil =>
    intro acc
    rw [splitLinesAux_nil]
    by_cases h : acc = []
    · subst h; simp
    · rw [if_neg h]; simp
  | cons c cs ih =>
    intro acc
    rw [splitLinesAux_cons]
    by_cases hc : c = '\n'
    · subst hc
      rw [if_pos rfl]
      simp [ih []]
    · rw [if_neg hc]
      rw [ih (c :: acc)]
      simp

/-- While `cursect` references the defaults dictionary, `__name__` is not
among the defaults and no option is pending, every header-free line either
is `rem`-skipped or raises the `KeyError` of iss.py lines 388/417; a batch
containing at least one non-`rem` line therefore always halts the scan
with that `KeyError`. -/
lemma walk_defaults_keyerr (strict : Bool) :
    ∀ (lines rest : List Str) (rs : RS),
    rs.halt = none → rs.cursect = some .defaults →
    odGet? rs.defaults NAMEKEY = none → rs.optname = none →
    (∀ l ∈ lines, sectMatch l = none) →
    (∃ l ∈ lines, ¬ skipRem l) →
    (runLines strict rs (lines ++ rest)).halt = some (.keyErr NAMEKEY) := by
  intro lines
  induction lines with
  | nil =>
    rintro rest rs _ _ _ _ _ ⟨l, hl, _⟩
    simp at hl
  | cons l ls ih =>
    intro rest rs hh hc hn ho hhdr hwit
    by_cases hsk : skipRem l
    · have hstep : step strict rs l = { rs with lineno := rs.lineno + 1 } := by
        rw [step_eq_stepA _ _ _ hh]
        exact stepA_rem _ _ _ hsk.1 hsk.2
      rw [List.cons_append, runLines_cons, hstep]
      have hwit' : ∃ x ∈ ls, ¬ skipRem x := by
        rcases hwit with ⟨w, hw, hnw⟩
        rcases List.mem_cons.mp hw with h | h
        · exact absurd hsk (h ▸ hnw)
        · exact ⟨w, h, hnw⟩
      exact ih rest _ hh hc hn ho (fun x hx => hhdr x (by simp [hx])) hwit'
    · have hc1 : ({ rs with lineno := rs.lineno + 1 } : RS).cursect
          = some CurRef.defaults := hc
      have hcg : RS.curGet { rs with lineno := rs.lineno + 1 } NAMEKEY = none := by
        show (match rs.cursect with
          | none => none
          | some CurRef.defaults => odGet? rs.defaults NAMEKEY
          | some (CurRef.sect n) =>
            (secGet? rs.sections n).bind (fun d => odGet? d NAMEKEY)) = none
        rw [hc]
        exact hn
      have hstep : (step strict rs l).halt = some (.keyErr NAMEKEY) := by
        rw [step_eq_stepA _ _ _ hh]
        by_cases hb : blankOrComment l
        · rw [stepA_blank_keyerr strict _ l .defaults hb hc1 hcg]
        · have hr : ¬ remLine l := fun h2 => hsk ⟨hb, h2⟩
          rw [stepA_fall _ _ _ hb hr,
            fallbody_noncont _ _ _ (by
              intro hcon
              have hso : rs.optname.isSome := hcon.2.2
              rw [ho] at hso
              simp at hso),
            headerOrOption_keyerr _ _ _ .defaults (hhdr l (by simp)) hc1 hcg]
      rw [List.cons_append, runLines_cons,
        runLines_halted _ _ _ (by rw [hstep]; rfl)]
      exact hstep

lemma nlTab_nil : nlTab [] = [] := rfl

lemma nlTab_cons (c : Char) (s : Str) :
    nlTab (c :: s) = (if c = '\n' then ['\n', '\t'] else [c]) ++ nlTab s := by
  unfold nlTab
  rfl

/-- Every `readline` line of `p ++ nlTab s ++ "\n"` (`p` newline-free and
nonempty) starts like `p` or with the re-indentation tab. -/
lemma nlTab_lines : ∀ (s p : Str), '\n' ∉ p → p ≠ [] →
    ∀ l ∈ splitLines (p ++ (nlTab s ++ ['\n'])), pyHead l = pyHead p ∨ pyHead l = '\t' := by
  intro s
  induction s with
  | nil =>
    intro p hp hpne l hl
    rw [nlTab_nil, List.nil_append] at hl
    rw [show p ++ ['\n'] = (p ++ ['\n']) ++ [] by simp] at hl
    rw [splitLines_line_append p [] hp, splitLines_nil] at hl
    rcases List.mem_singleton.mp hl with rfl
    exact Or.inl (pyHead_append p ['\n'] hpne)
  | cons c s ih =>
    intro p hp hpne l hl
    rw [nlTab_cons] at hl
    by_cases hc : c = '\n'
    · rw [if_pos hc] at hl
      rw [show ['\n', '\t'] ++ nlTab s ++ ['\n'] = ['\n', '\t'] ++ (nlTab s ++ ['\n'])
          by simp] at hl
      rw [show p ++ (['\n', '\t'] ++ (nlTab s ++ ['\n']))
          = (p ++ ['\n']) ++ ('\t' :: (nlTab s ++ ['\n'])) by simp] at hl
      rw [splitLines_line_append p _ hp] at hl
      rcases List.mem_cons.mp hl with rfl | hl
      · exact Or.inl (pyHead_append p ['\n'] hpne)
      · have := ih ['\t'] (by decide) (by decide) l (by simpa using hl)
        rcases this with h | h
        · exact Or.inr h
        · exact Or.inr h
    · rw [if_neg hc] at hl
      rw [show [c] ++ nlTab s ++ ['\n'] = [c] ++ (nlTab s ++ ['\n']) by simp] at hl
      rw [show p ++ ([c] ++ (nlTab s ++ ['\n']))
          = (p ++ [c]) ++ (nlTab s ++ ['\n']) by simp] at hl
      have hpc : '\n' ∉ p ++ [c] := by
        intro h
        rcases List.mem_append.mp h with h | h
        · exact hp h
        · exact hc (List.mem_singleton.mp h).symm
      have := ih (p ++ [c]) hpc (by simp) l hl
      rcases this with h | h
      · exact Or.inl (by rw [← pyHead_append p [c] hpne]; exact h)
      · exact Or.inr h

/-- No `readline` line of a written defaults entry whose key is
newline-free and does not start with `[` can match `SECTCRE`. -/
lemma wdEntry_lines_no_header (kv : Str × Val) (hk : '\n' ∉ kv.1)
    (hhd : pyHead kv.1 ≠ '[') :
    ∀ l ∈ splitLines (wdEntry kv), sectMatch l = none := by
  intro l hl
  have hp : '\n' ∉ (kv.1 ++ " = ".data) := by
    intro h
    rcases List.mem_append.mp h with h | h
    · exact hk h
    · exact absurd h (by decide)
  have hpne : kv.1 ++ " = ".data ≠ [] := by simp
  have hl' : l ∈ splitLines ((kv.1 ++ " = ".data) ++ (nlTab (strOfVal kv.2) ++ ['\n'])) := by
    have : wdEntry kv = (kv.1 ++ " = ".data) ++ (nlTab (strOfVal kv.2) ++ ['\n']) := by
      unfold wdEntry; simp
    rwa [this] at hl
  rcases nlTab_lines (strOfVal kv.2) (kv.1 ++ " = ".data) hp hpne l hl' with h | h
  · apply sectMatch_of_head
    rw [h]
    by_cases hk1 : kv.1 = []
    · rw [hk1]
      decide
    · rw [pyHead_append _ _ hk1]
      exact hhd
  · apply sectMatch_of_head
    rw [h]
    decide

/-- Every line of the written defaults body (entries plus the blank
separator) is header-free, provided keys are newline-free and do not start
with `[`. -/
lemma defaults_body_no_header (d : Od)
    (hkeys : ∀ kv ∈ d, '\n' ∉ kv.1 ∧ pyHead kv.1 ≠ '[') :
    ∀ l ∈ splitLines ((d.map wdEntry).flatten ++ ['\n']), sectMatch l = none := by
  induction d with
  | nil =>
    intro l hl
    simp only [List.map_nil, List.flatten_nil, List.nil_append] at hl
    rw [show splitLines ['\n'] = [['\n']] from rfl] at hl
    rcases List.mem_singleton.mp hl with rfl
    decide
  | cons kv d ih =>
    intro l hl
    have hterm : (wdEntry kv).getLast? = some '\n' := by
      have heq : wdEntry kv = (kv.1 ++ " = ".data ++ nlTab (strOfVal kv.2)) ++ ['\n'] := by
        unfold wdEntry
        simp [List.append_assoc]
      rw [heq, List.getLast?_append]
      rfl
    rw [List.map_cons, List.flatten_cons, List.append_assoc,
      splitLines_append_term _ hterm] at hl
    rcases List.mem_append.mp hl with h | h
    · exact wdEntry_lines_no_header kv (hkeys kv (by simp)).1 (hkeys kv (by simp)).2 l h
    · exact ih (fun x hx => hkeys x (by simp [hx])) l h

/-- The written defaults body always contains its final blank line. -/
lemma defaults_body_has_blank (d : Od) :
    ('\n' :: ([] : Str)) ∈ splitLines ((d.map wdEntry).flatten ++ ['\n']) := by
  induction d with
  | nil =>
    simp only [List.map_nil, List.flatten_nil, List.nil_append]
    rw [show splitLines ['\n'] = [['\n']] from rfl]
    simp
  | cons kv d ih =>
    have hterm : (wdEntry kv).getLast? = some '\n' := by
      have heq : wdEntry kv = (kv.1 ++ " = ".data ++ nlTab (strOfVal kv.2)) ++ ['\n'] := by
        unfold wdEntry
        simp [List.append_assoc]
      rw [heq, List.getLast?_append]
      rfl
    rw [List.map_cons, List.flatten_cons, List.append_assoc,
      splitLines_append_term _ hterm]
    exact List.mem_append.mpr (Or.inr ih)

lemma parseLines_fst_keyerr (strict : Bool) (ps : PState) (fname : Str)
    (lines : List Str) (k : Str)
    (h : (runLines strict (initRS ps) lines).halt = some (.keyErr k)) :
    (parseLines strict ps fname lines).1 = some (.keyError k) := by
  unfold parseLines parseOutcome
  rw [h]

/-- Processing the `[DEFAULT]` header from the start of a file routes
`cursect` to the defaults dictionary. -/
lemma step_default_header (defs : Od) :
    step true (initRS ⟨[], defs⟩) "[DEFAULT]\n".data
      = ⟨[], defs, some .defaults, none, 1, [], none⟩ := by
  rw [step_eq_stepA _ _ _ rfl,
    stepA_fall _ _ _ (by decide) (by decide),
    fallbody_noncont _ _ _ (fun hcon => absurd hcon.1 (by decide)),
    headerOrOption_header _ _ _ "DEFAULT".data (by decide)]
  rfl

/-- C2, counterexample: the claim's final sentence fails: with the
non-empty defaults overlay `'[a' = 'b]'` the serializer emits the defaults
line `[a = b]`, which re-parses as a section header and diverts the scan
into a content-mode section, so re-parsing the serializer's own output
succeeds instead of raising `KeyError`. -/
theorem C2_counterexample :
    (parseLines true ⟨[], [("[a".data, .vStr "b]".data)]⟩ "f".data
        (splitLines (writeDoc true ⟨[], [("[a".data, .vStr "b]".data)]⟩))).1 = none := by
  decide

/-- C2, amended: with no `__name__` among the defaults, a `[DEFAULT]`
header followed by any non-header line that is blank, a comment, or not a
`rem` line makes the parse raise an unhandled `KeyError` on `__name__`;
and re-parsing the serializer's own output raises that `KeyError` whenever
the defaults overlay is non-empty, provided no written defaults entry
itself parses as a section header (guaranteed when keys are newline-free
and do not start with `[`). -/
theorem C2_default_keyerror_amended (defs : Od) (fname : Str)
    (hn : odGet? defs NAMEKEY = none) :
    (∀ l, blankOrComment l ∨ (¬ remLine l ∧ sectMatch l = none) →
      (parseLines true ⟨[], defs⟩ fname ["[DEFAULT]\n".data, l]).1
        = some (.keyError NAMEKEY)) ∧
    (∀ ps : PState, ps.defaults = defs → defs ≠ [] →
      (∀ kv ∈ defs, '\n' ∉ kv.1 ∧ pyHead kv.1 ≠ '[') →
      (parseLines true ⟨[], defs⟩ fname (splitLines (writeDoc true ps))).1
        = some (.keyError NAMEKEY)) := by
  constructor
  · intro l hl
    apply parseLines_fst_keyerr
    rw [show (["[DEFAULT]\n".data, l] : List Str)
        = ["[DEFAULT]\n".data] ++ [l] from rfl, runLines_append]
    rw [show runLines true (initRS ⟨[], defs⟩) ["[DEFAULT]\n".data]
        = step true (initRS ⟨[], defs⟩) "[DEFAULT]\n".data from rfl,
      step_default_header defs]
    have hw : ∃ x ∈ [l], ¬ skipRem x := by
      refine ⟨l, by simp, ?_⟩
      rcases hl with hb | ⟨hr, _⟩
      · exact fun hsk => hsk.1 hb
      · exact fun hsk => hr hsk.2
    apply walk_defaults_keyerr true [l] [] _ rfl rfl hn rfl ?_ hw
    intro x hx
    rcases List.mem_singleton.mp hx with rfl
    rcases hl with hb | ⟨_, hs⟩
    · exact sectMatch_of_blankOrComment x hb
    · exact hs
  · intro ps hdef hne hkeys
    apply parseLines_fst_keyerr
    have hwd : writeDoc true ps = ("[DEFAULT]".data ++ ['\n'])
        ++ (((defs.map wdEntry).flatten ++ ['\n'])
            ++ (ps.sections.map (writeSection true)).flatten) := by
      unfold writeDoc writeDefaults
      rw [hdef, if_neg hne]
      rw [show ('[' :: DEFAULTSECT ++ "]\n".data : Str)
          = ("[DEFAULT]".data ++ ['\n']) from by decide]
      simp [List.append_assoc]
    have hterm : ((defs.map wdEntry).flatten ++ ['\n']).getLast? = some '\n' := by
      rw [List.getLast?_append]
      rfl
    rw [hwd, splitLines_line_append _ _ (by decide),
      splitLines_append_term _ hterm, runLines_cons,
      show ("[DEFAULT]".data ++ ['\n'] : Str) = "[DEFAULT]\n".data from by decide,
      step_default_header defs]
    exact walk_defaults_keyerr true _ _ _ rfl rfl hn rfl
      (defaults_body_no_header defs hkeys)
      ⟨['\n'], defaults_body_has_blank defs, by decide⟩

/-- C2, witness: the amended statement for the defaults overlay `a = 1`:
the direct `[DEFAULT]`-plus-option-line file, and re-parsing the
serializer's own output. -/
theorem C2_default_keyerror_witness :
    (parseLines true ⟨[], [("a".data, .vStr "1".data)]⟩ "f".data
        ["[DEFAULT]\n".data, "x=1\n".data]).1 = some (.keyError NAMEKEY) ∧
    (parseLines true ⟨[], [("a".data, .vStr "1".data)]⟩ "f".data
        (splitLines (writeDoc true ⟨[], [("a".data, .vStr "1".data)]⟩))).1
      = some (.keyError NAMEKEY) :=
  ⟨(C2_default_keyerror_amended [("a".data, .vStr "1".data)] "f".data (by decide)).1
      "x=1\n".data (Or.inr ⟨by decide, by decide⟩),
   (C2_default_keyerror_amended [("a".data, .vStr "1".data)] "f".data (by decide)).2
      ⟨[], [("a".data, .vStr "1".data)]⟩ rfl (by decide) (by decide)⟩

lemma odGet?_odSet_self (d : Od) (k : Str) (v : Val) :
    odGet? (odSet d k v) k = some v := by
  induction d with
  | nil => simp [odSet, odGet?]
  | cons kv rest ih =>
    rcases kv with ⟨k', v'⟩
    by_cases h : k' = k
    · subst h; simp [odSet, odGet?]
    · simp only [odSet, if_neg h, odGet?]
      exact ih

lemma odGet?_odSet_ne (d : Od) (k k2 : Str) (v : Val) (h : k ≠ k2) :
    odGet? (odSet d k v) k2 = odGet? d k2 := by
  induction d with
  | nil => simp [odSet, odGet?, h]
  | cons kv rest ih =>
    rcases kv with ⟨k', v'⟩
    by_cases h' : k' = k
    · subst h'; simp [odSet, odGet?, h]
    · simp only [odSet, if_neg h', odGet?]
      by_cases h2 : k' = k2
      · rw [if_pos h2, if_pos h2]
      · rw [if_neg h2, if_neg h2]
        exact ih

lemma odSet_odSet_same (d : Od) (k : Str) (v w : Val) :
    odSet (odSet d k v) k w = odSet d k w := by
  induction d with
  | nil => simp [odSet]
  | cons kv rest ih =>
    rcases kv with ⟨k', v'⟩
    by_cases h : k' = k
    · subst h; simp [odSet]
    · simp only [odSet, if_neg h]
      rw [ih]

lemma secGet?_secSet_self (ss : Sects) (n : Str) (d : Od) :
    secGet? (secSet ss n d) n = some d := by
  induction ss with
  | nil => simp [secSet, secGet?]
  | cons nd rest ih =>
    rcases nd with ⟨n', d'⟩
    by_cases h : n' = n
    · subst h; simp [secSet, secGet?]
    · simp only [secSet, if_neg h, secGet?]
      exact ih

lemma secGet?_secSet_ne (ss : Sects) (n n2 : Str) (d : Od) (h : n ≠ n2) :
    secGet? (secSet ss n d) n2 = secGet? ss n2 := by
  induction ss with
  | nil => simp [secSet, secGet?, h]
  | cons nd rest ih =>
    rcases nd with ⟨n', d'⟩
    by_cases h' : n' = n
    · subst h'; simp [secSet, secGet?, h]
    · simp only [secSet, if_neg h', secGet?]
      by_cases h2 : n' = n2
      · rw [if_pos h2, if_pos h2]
      · rw [if_neg h2, if_neg h2]
        exact ih

lemma stateAt_succ (strict : Bool) (ps : PState) (lines : List Str) (i : Nat)
    (h : i < lines.length) :
    stateAt strict ps lines (i + 1)
      = step strict (stateAt strict ps lines i) lines[i] := by
  unfold stateAt
  rw [List.take_succ, List.getElem?_eq_getElem h]
  rw [runLines_append]
  rfl

lemma curGet_sect_some (rs : RS) (n k : Str) (v : Val)
    (hc : rs.cursect = some (.sect n)) (h : rs.curGet k = some v) :
    ∃ d, secGet? rs.sections n = some d ∧ odGet? d k = some v := by
  unfold RS.curGet at h
  rw [hc] at h
  have h' : (secGet? rs.sections n).bind (fun d => odGet? d k) = some v := h
  rcases hd : secGet? rs.sections n with _ | d
  · rw [hd] at h'
    exact Option.noConfusion h'
  · rw [hd] at h'
    exact ⟨d, rfl, h'⟩

lemma curSet_sect (rs : RS) (n : Str) (d : Od) (k : Str) (v : Val)
    (hc : rs.cursect = some (.sect n)) (hd : secGet? rs.sections n = some d) :
    rs.curSet k v = { rs with sections := secSet rs.sections n (odSet d k v) } := by
  rcases rs with ⟨ss, df, cur, opt, ln, er, ha⟩
  have hc' : cur = some (.sect n) := hc
  subst hc'
  have h1 : RS.curSet ⟨ss, df, some (.sect n), opt, ln, er, ha⟩ k v
      = (match secGet? ss n with
        | none => (⟨ss, df, some (.sect n), opt, ln, er, ha⟩ : RS)
        | some d2 => ⟨secSet ss n (odSet d2 k v), df, some (.sect n), opt, ln, er, ha⟩) := rfl
  have hd' : secGet? ss n = some d := hd
  rw [h1, hd']

lemma doCapture_fresh (rs : RS) (l : Str) (h : rs.curGet CONTENTBLOCK = none) :
    doCapture rs l = rs.curSet CONTENTBLOCK (.vStr l) := by
  unfold doCapture
  rw [h]

lemma doCapture_str (rs : RS) (l b : Str)
    (h : rs.curGet CONTENTBLOCK = some (.vStr b)) :
    doCapture rs l = rs.curSet CONTENTBLOCK (.vStr (b ++ l)) := by
  unfold doCapture
  rw [h]

lemma blockOf_eq (rs : RS) (n : Str) (d : Od) (hd : secGet? rs.sections n = some d) :
    blockOf rs n = (match odGet? d CONTENTBLOCK with
      | some (.vStr b) => b
      | _ => []) := by
  unfold blockOf blockOfS
  rw [hd, Option.some_bind]
  rcases odGet? d CONTENTBLOCK with _ | v
  · rfl
  · rcases v <;> rfl

/-- C6, counterexample: loading good file `a` (contributing section `A`)
then malformed file `b` propagates `b`'s fatal error, but the section
state contributed by `a` is not unaffected: `read` resets `self._sections`
before each file's parse (iss.py line 235), so the store after the aborted
load no longer has section `A`. -/
theorem C6_counterexample :
    readFiles true ⟨[], []⟩ [.found "a".data ["[A]\n".data, "x\n".data]]
      = .ok (["a".data], ⟨[("A".data, [(NAMEKEY, .vStr "A".data),
          (CONTENTBLOCK, .vStr "x\n".data)])], []⟩) ∧
    readFiles true ⟨[], []⟩ [.found "a".data ["[A]\n".data, "x\n".data],
        .found "b".data ["bogus\n".data]]
      = .error (.missingSectionHeader "b".data 1 "bogus\n".data, ⟨[], []⟩) ∧
    hasSection ⟨[], []⟩ "A".data = false := by
  refine ⟨by decide, by decide, by decide⟩

/-- C6, amended: if every file before the failing one loads successfully,
the failing file's parse error propagates to the caller unchanged (later
paths are never visited, and the success list is lost with the raise); the
stores at that point are those the failing parse left: the sections map
was reset at the start of that file's load, so earlier files' section
state has already been replaced, while the defaults overlay persists. -/
theorem C6_bulk_load_amended (strict : Bool) (ps : PState) (gs : List FileInput)
    (n : Str) (ls : List Str) (rest : List FileInput) (names : List Str)
    (ps' : PState) (e : PErr)
    (h1 : readFiles strict ps gs = .ok (names, ps'))
    (h2 : (parseLines strict ⟨[], ps'.defaults⟩ n ls).1 = some e) :
    readFiles strict ps (gs ++ .found n ls :: rest)
      = .error (e, (parseLines strict ⟨[], ps'.defaults⟩ n ls).2) := by
  induction gs generalizing ps names with
  | nil =>
    rw [show readFiles strict ps ([] : List FileInput) = .ok ([], ps) from rfl] at h1
    injection h1 with h3
    injection h3 with h4 h5
    subst h4
    subst h5
    simp only [List.nil_append]
    have hunf : readFiles strict ps (.found n ls :: rest)
        = (match parseLines strict ⟨[], ps.defaults⟩ n ls with
          | (some err, pbad) => Except.error (err, pbad)
          | (none, pok) =>
            match readFiles strict pok rest with
            | .ok (ns, pf) => .ok (n :: ns, pf)
            | .error e2 => .error e2) := rfl
    rw [hunf]
    rcases hp : parseLines strict ⟨[], ps.defaults⟩ n ls with ⟨o, pbad⟩
    rw [hp] at h2
    have h2b : o = some e := h2
    subst h2b
    rfl
  | cons g gs ih =>
    cases g with
    | missing m =>
      rw [show readFiles strict ps (.missing m :: gs) = readFiles strict ps gs
        from rfl] at h1
      rw [List.cons_append,
        show readFiles strict ps (.missing m :: (gs ++ .found n ls :: rest))
          = readFiles strict ps (gs ++ .found n ls :: rest) from rfl]
      exact ih ps names h1
    | found m mls =>
      rw [List.cons_append]
      have hunf : ∀ (files : List FileInput),
          readFiles strict ps (.found m mls :: files)
            = (match parseLines strict ⟨[], ps.defaults⟩ m mls with
              | (some e2, pbad) => Except.error (e2, pbad)
              | (none, pok) =>
                match readFiles strict pok files with
                | .ok (ns, pf) => .ok (m :: ns, pf)
                | .error e2 => .error e2) := fun _ => rfl
      rw [hunf] at h1
      rw [hunf]
      rcases hq : parseLines strict ⟨[], ps.defaults⟩ m mls with ⟨o, p2⟩
      rw [hq] at h1
      cases o with
      | some err =>
        have h1b : Except.error (ε := PErr × PState) (err, p2)
            = Except.ok (names, ps') := h1
        exact Except.noConfusion h1b
      | none =>
        have h1' : (match readFiles strict p2 gs with
            | Except.ok (ns, pf) => Except.ok (m :: ns, pf)
            | Except.error e2 => Except.error e2) = Except.ok (names, ps') := h1
        show (match readFiles strict p2 (gs ++ FileInput.found n ls :: rest) with
            | Except.ok (ns, pf) => Except.ok (m :: ns, pf)
            | Except.error e2 => Except.error e2)
          = Except.error (e, (parseLines strict ⟨[], ps'.defaults⟩ n ls).2)
        rcases hrest : readFiles strict p2 gs with e2 | r2
        · rw [hrest] at h1'
          have h1b : Except.error (ε := PErr × PState) e2
              = Except.ok (names, ps') := h1'
          exact Except.noConfusion h1b
        · rcases r2 with ⟨ns, pf⟩
          rw [hrest] at h1'
          have h1b : Except.ok (ε := PErr × PState) (m :: ns, pf)
              = Except.ok (names, ps') := h1'
          injection h1b with h3
          injection h3 with h4 h5
          subst h5
          rw [ih p2 ns hrest]

/-- C6, witness: the amended statement with one good file `a` before the
fatally malformed file `b` and a further file `c` that is never reached. -/
theorem C6_bulk_load_witness :
    readFiles true ⟨[], []⟩ [.found "a".data ["[A]\n".data, "x\n".data],
        .found "b".data ["bogus\n".data], .found "c".data ["[C]\n".data]]
      = .error (.missingSectionHeader "b".data 1 "bogus\n".data, ⟨[], []⟩) := by
  have h := C6_bulk_load_amended true ⟨[], []⟩
      [.found "a".data ["[A]\n".data, "x\n".data]] "b".data ["bogus\n".data]
      [.found "c".data ["[C]\n".data]]
      ["a".data] ⟨[("A".data, [(NAMEKEY, .vStr "A".data),
          (CONTENTBLOCK, .vStr "x\n".data)])], []⟩
      (.missingSectionHeader "b".data 1 "bogus\n".data)
      (by decide) (by decide)
  rw [show (parseLines true ⟨[], []⟩ "b".data ["bogus\n".data]).2 = ⟨[], []⟩
    from by decide] at h
  exact h

/-- C3, counterexample: in `[Files]` (a content-mode section) the
non-header line `rem hello\n` is not appended to the ContentBlock — it is
silently dropped by the `rem` rule of iss.py line 390, so the parsed
section holds no ContentBlock at all. -/
theorem C3_counterexample :
    (parseLines true ⟨[], []⟩ "f".data ["[Files]\n".data, "rem hello\n".data]).1
      = none ∧
    (parseLines true ⟨[], []⟩ "f".data ["[Files]\n".data, "rem hello\n".data]).2
      = ⟨[("Files".data, [(NAMEKEY, .vStr "Files".data)])], []⟩ := by
  refine ⟨by decide, by decide⟩

/-- C3, amended: while the current section is in content mode (its stored
`__name__` is not `Setup`), every non-header line that is not a `rem` line
— including blank and comment lines — and that does not trigger the
continuation branch (no Setup option is pending with the line indented) is
appended verbatim, with its original terminator, to that section's
ContentBlock accumulator; the error list, the halt status and the defaults
are untouched. -/
theorem C3_content_capture_amended (strict : Bool) (ps : PState) (lines : List Str)
    (i : Nat) (n : Str) (hi : i < lines.length)
    (hhalt : (stateAt strict ps lines i).halt = none)
    (hcur : (stateAt strict ps lines i).cursect = some (.sect n))
    (hname : (stateAt strict ps lines i).curGet NAMEKEY = some (.vStr n))
    (hn : n ≠ SETUP)
    (hblock : (stateAt strict ps lines i).curGet CONTENTBLOCK = none ∨
      ∃ b, (stateAt strict ps lines i).curGet CONTENTBLOCK = some (.vStr b))
    (hcont : ¬ (pyIsSpace (pyHead lines[i]) ∧ (stateAt strict ps lines i).optname.isSome))
    (hhdr : sectMatch lines[i] = none)
    (hrem : ¬ remLine lines[i]) :
    blockOf (stateAt strict ps lines (i + 1)) n
        = blockOf (stateAt strict ps lines i) n ++ lines[i] ∧
    (stateAt strict ps lines (i + 1)).errs = (stateAt strict ps lines i).errs ∧
    (stateAt strict ps lines (i + 1)).halt = none ∧
    (stateAt strict ps lines (i + 1)).defaults = (stateAt strict ps lines i).defaults := by
  obtain ⟨d, hd, hdn⟩ := curGet_sect_some _ n NAMEKEY _ hcur hname
  set rs := stateAt strict ps lines i with hrs
  set l := lines[i] with hlin
  have hvne : (Val.vStr n) ≠ .vStr SETUP := fun h => hn (Val.vStr.inj h)
  have hc1 : ({ rs with lineno := rs.lineno + 1 } : RS).cursect = some (CurRef.sect n) := hcur
  have hn1 : RS.curGet { rs with lineno := rs.lineno + 1 } NAMEKEY = some (.vStr n) := hname
  have hb1 : RS.curGet { rs with lineno := rs.lineno + 1 } CONTENTBLOCK
      = rs.curGet CONTENTBLOCK := rfl
  have hstep : step strict rs l = doCapture { rs with lineno := rs.lineno + 1 } l := by
    rw [step_eq_stepA _ _ _ hhalt]
    by_cases hb : blankOrComment l
    · rw [stepA_blank_content strict _ l (.sect n) (.vStr n) hb hc1 hn1 hvne]
      rw [fallbody_noncont strict { rs with lineno := rs.lineno + 1 } l
        (fun hcon => hcont ⟨hcon.1, hcon.2.2⟩)]
      rw [headerOrOption_capture strict { rs with lineno := rs.lineno + 1 } l
        (.sect n) (.vStr n) hhdr hc1 hn1 hvne]
    · rw [stepA_fall _ _ _ hb hrem]
      rw [fallbody_noncont strict { rs with lineno := rs.lineno + 1 } l
        (fun hcon => hcont ⟨hcon.1, hcon.2.2⟩)]
      rw [headerOrOption_capture strict { rs with lineno := rs.lineno + 1 } l
        (.sect n) (.vStr n) hhdr hc1 hn1 hvne]
  have hnext := stateAt_succ strict ps lines i hi
  rw [← hrs, ← hlin] at hnext
  rw [hnext, hstep]
  have hd1 : secGet? ({ rs with lineno := rs.lineno + 1 } : RS).sections n = some d := hd
  rcases hblock with hfresh | ⟨b, hstr⟩
  · rw [doCapture_fresh _ _ (hb1.trans hfresh),
      curSet_sect _ n d CONTENTBLOCK (.vStr l) hc1 hd1]
    refine ⟨?_, rfl, hhalt, rfl⟩
    have hcb : odGet? d CONTENTBLOCK = none := by
      rcases h3 : odGet? d CONTENTBLOCK with _ | w
      · rfl
      · exfalso
        have hw : rs.curGet CONTENTBLOCK = some w := by
          unfold RS.curGet
          rw [hcur]
          show (secGet? rs.sections n).bind (fun d2 => odGet? d2 CONTENTBLOCK) = some w
          rw [hd]
          show odGet? d CONTENTBLOCK = some w
          exact h3
        rw [hw] at hfresh
        exact Option.noConfusion hfresh
    show blockOfS (secSet rs.sections n (odSet d CONTENTBLOCK (.vStr l))) n
      = blockOfS rs.sections n ++ l
    unfold blockOfS
    rw [secGet?_secSet_self, hd, Option.some_bind, Option.some_bind, hcb,
      odGet?_odSet_self]
    rfl
  · rw [doCapture_str _ _ b (hb1.trans hstr),
      curSet_sect _ n d CONTENTBLOCK (.vStr (b ++ l)) hc1 hd1]
    refine ⟨?_, rfl, hhalt, rfl⟩
    have hcb : odGet? d CONTENTBLOCK = some (.vStr b) := by
      obtain ⟨d2, hd2, ho2⟩ := curGet_sect_some _ n CONTENTBLOCK _ hcur hstr
      rw [hd] at hd2
      injection hd2 with hd3
      subst hd3
      exact ho2
    show blockOfS (secSet rs.sections n (odSet d CONTENTBLOCK (.vStr (b ++ l)))) n
      = blockOfS rs.sections n ++ l
    unfold blockOfS
    rw [secGet?_secSet_self, hd, Option.some_bind, Option.some_bind, hcb,
      odGet?_odSet_self]
    rfl

lemma secSet_secSet_same (ss : Sects) (n : Str) (d e : Od) :
    secSet (secSet ss n d) n e = secSet ss n e := by
  induction ss with
  | nil => simp [secSet]
  | cons nd rest ih =>
    rcases nd with ⟨n', d'⟩
    by_cases h : n' = n
    · subst h; simp [secSet]
    · simp only [secSet, if_neg h]
      rw [ih]

lemma optMatch_cons (strict : Bool) (c : Char) (t : Str) :
    optMatch strict (c :: t)
      = if c = ':' ∨ c = '=' ∨ pyIsSpace c then none
        else
          match splitSep (c :: t) with
          | some (p, sp, r) => some ⟨p, some sp, some (r.dropWhile pyIsSpace)⟩
          | none => if strict then none else some ⟨c :: t, none, none⟩ := rfl

lemma optMatch_head (strict : Bool) (content : Str) (mo : OptMo)
    (h : optMatch strict content = some mo) :
    ∃ c t, content = c :: t ∧ ¬ (c = ':' ∨ c = '=' ∨ pyIsSpace c) := by
  cases content with
  | nil => exact absurd h (by simp [optMatch])
  | cons c t =>
    refine ⟨c, t, rfl, fun hcon => ?_⟩
    rw [optMatch_cons, if_pos hcon] at h
    exact Option.noConfusion h

lemma pyHead_contOf (l : Str) (h : contOf l ≠ []) : pyHead (contOf l) = pyHead l := by
  unfold contOf at h ⊢
  by_cases hl : l.getLast? = some '\n'
  · rw [if_pos hl] at h ⊢
    cases l with
    | nil => simp at h
    | cons c cs =>
      cases cs with
      | nil =>
        simp at h
      | cons c2 cs2 => rfl
  · rw [if_neg hl]

lemma contLine_append (rs : RS) (l onm : Str) (lst : List Str)
    (hne : pyStrip l ≠ []) (ho : rs.optname = some onm)
    (hg : rs.curGet onm = some (.vList lst)) :
    contLine rs l = rs.curSet onm (.vList (lst ++ [pyStrip l])) := by
  rcases rs with ⟨ss, df, cur, opt, ln, er, ha⟩
  have ho' : opt = some onm := ho
  subst ho'
  have hg' : RS.curGet ⟨ss, df, cur, some onm, ln, er, ha⟩ onm = some (.vList lst) := hg
  unfold contLine
  rw [if_neg hne]
  show (match RS.curGet ⟨ss, df, cur, some onm, ln, er, ha⟩ onm with
    | some (.vList lst2) =>
      RS.curSet ⟨ss, df, cur, some onm, ln, er, ha⟩ onm (.vList (lst2 ++ [pyStrip l]))
    | some _ => (⟨ss, df, cur, some onm, ln, er, some .attrErr⟩ : RS)
    | none => (⟨ss, df, cur, some onm, ln, er, some (.keyErr onm)⟩ : RS)) = _
  rw [hg']

lemma doOption_value (strict : Bool) (rs : RS) (l : Str) (mo : OptMo) (ov : Str)
    (hm : optMatch strict (contOf l) = some mo) (hv : mo.value = some ov) :
    doOption strict rs l
      = { rs.curSet (pyRstrip mo.oname) (.vList [procOptval mo.vi ov]) with
          optname := some (pyRstrip mo.oname) } := by
  unfold doOption
  rw [hm]
  show (match mo.value with
    | some ov2 =>
      { rs.curSet (pyRstrip mo.oname) (.vList [procOptval mo.vi ov2]) with
        optname := some (pyRstrip mo.oname) }
    | none =>
      { rs.curSet (pyRstrip mo.oname) .vNone with
        optname := some (pyRstrip mo.oname) }) = _
  rw [hv]

lemma odGet?_joinOd (d : Od) (k : Str) :
    odGet? (joinOd d) k = (odGet? d k).map joinVal := by
  induction d with
  | nil => simp [joinOd, odGet?]
  | cons kv rest ih =>
    rcases kv with ⟨k', v'⟩
    by_cases h : k' = k
    · subst h; simp [joinOd, odGet?]
    · simp only [joinOd, List.map_cons, odGet?, if_neg h]
      exact ih

lemma secGet?_join (ss : Sects) (n : Str) :
    secGet? (ss.map (fun nd => (nd.1, joinOd nd.2))) n = (secGet? ss n).map joinOd := by
  induction ss with
  | nil => simp [secGet?]
  | cons nd rest ih =>
    rcases nd with ⟨n', d'⟩
    by_cases h : n' = n
    · subst h; simp [secGet?]
    · simp only [List.map_cons, secGet?, if_neg h]
      exact ih

/-- Consuming a run of indented, non-blank continuation lines while an
option is pending appends their stripped bodies to the pending value
list. -/
lemma runLines_cont (strict : Bool) (s onm : Str) :
    ∀ (cont : List Str) (ss0 : Sects) (d df : Od) (ln : Nat) (pcs : List Str),
    (∀ l ∈ cont, pyIsSpace (pyHead l) = true ∧ pyStrip l ≠ []) →
    runLines strict ⟨secSet ss0 s (odSet d onm (.vList pcs)), df, some (.sect s),
        some onm, ln, [], none⟩ cont
      = ⟨secSet ss0 s (odSet d onm (.vList (pcs ++ cont.map pyStrip))), df,
         some (.sect s), some onm, ln + cont.length, [], none⟩ := by
  intro cont
  induction cont with
  | nil =>
    intro ss0 d df ln pcs hc
    simp [runLines_nil]
  | cons l ls ih =>
    intro ss0 d df ln pcs hc
    obtain ⟨hsp, hne⟩ := hc l (by simp)
    have hnb : ¬ blankOrComment l := by
      rintro (hb | hb | hb)
      · exact hne hb
      · rw [hb] at hsp; simp [pyIsSpace] at hsp
      · rw [hb] at hsp; simp [pyIsSpace] at hsp
    have hnr : ¬ remLine l := by
      rintro ⟨_, hb | hb⟩
      · rw [hb] at hsp; simp [pyIsSpace] at hsp
      · rw [hb] at hsp; simp [pyIsSpace] at hsp
    have hstep : step strict ⟨secSet ss0 s (odSet d onm (.vList pcs)), df,
        some (.sect s), some onm, ln, [], none⟩ l
        = ⟨secSet ss0 s (odSet d onm (.vList (pcs ++ [pyStrip l]))), df,
           some (.sect s), some onm, ln + 1, [], none⟩ := by
      have h0 : step strict ⟨secSet ss0 s (odSet d onm (.vList pcs)), df,
          some (.sect s), some onm, ln, [], none⟩ l
          = stepA strict ⟨secSet ss0 s (odSet d onm (.vList pcs)), df,
            some (.sect s), some onm, ln + 1, [], none⟩ l := rfl
      rw [h0, stepA_fall _ _ _ hnb hnr,
        fallbody_cont strict ⟨secSet ss0 s (odSet d onm (.vList pcs)), df,
          some (.sect s), some onm, ln + 1, [], none⟩ l ⟨hsp, rfl, rfl⟩]
      rw [contLine_append _ l onm pcs hne rfl
        (by
          show ((secGet? (secSet ss0 s (odSet d onm (.vList pcs))) s).bind
            (fun d2 => odGet? d2 onm)) = some (.vList pcs)
          rw [secGet?_secSet_self, Option.some_bind, odGet?_odSet_self])]
      rw [curSet_sect _ s (odSet d onm (.vList pcs)) onm
        (.vList (pcs ++ [pyStrip l])) rfl (by exact secGet?_secSet_self _ s _)]
      show (⟨secSet (secSet ss0 s (odSet d onm (.vList pcs))) s
          (odSet (odSet d onm (.vList pcs)) onm (.vList (pcs ++ [pyStrip l]))), df,
          some (.sect s), some onm, ln + 1, [], none⟩ : RS) = _
      rw [secSet_secSet_same, odSet_odSet_same]
    rw [runLines_cons, hstep, ih ss0 d df (ln + 1) (pcs ++ [pyStrip l])
      (fun x hx => hc x (by simp [hx]))]
    simp only [List.map_cons, List.append_assoc, List.singleton_append,
      List.length_cons]
    rw [show ln + 1 + ls.length = ln + (ls.length + 1) from by omega]

/-- Section-tier hit of `ConfigParser.get`: when the section exists and
holds the option, its own value is returned. -/
lemma cpGet_hit (ps : PState) (sect opt : Str) (d : Od) (v : Val)
    (h1 : secGet? ps.sections sect = some d) (h2 : odGet? d opt = some v) :
    cpGet ps sect opt = .ok v := by
  unfold cpGet
  rw [h1]
  show (match odGet? d opt with
    | some v2 => Except.ok v2
    | none =>
      match odGet? ps.defaults opt with
      | some v2 => Except.ok v2
      | none => Except.error (PErr.noOption opt sect)) = _
  rw [h2]

/-- C10: a Setup-mode option line with a value, followed by N indented
lines each with non-empty stripped content, parses without error, and the
final value of the option is the option line's processed value followed by
the N stripped bodies, all joined with a newline — the join performed once
at end of input (iss.py lines 393-397 and 456-462). -/
theorem C10_continuation_join (strict : Bool) (ps : PState) (fname : Str)
    (pre : List Str) (ol : Str) (cont : List Str)
    (ss0 : Sects) (d df : Od) (opt0 : Option Str) (ln : Nat)
    (s : Str) (mo : OptMo) (ov : Str)
    (h1 : runLines strict (initRS ps) pre
      = ⟨ss0, df, some (.sect s), opt0, ln, [], none⟩)
    (h2 : secGet? ss0 s = some d)
    (h3 : odGet? d NAMEKEY = some (.vStr SETUP))
    (h4 : ¬ blankOrComment ol)
    (h5 : ¬ remLine ol)
    (h6 : pyIsSpace (pyHead ol) = false)
    (h7 : sectMatch ol = none)
    (h8 : optMatch strict (contOf ol) = some mo)
    (h9 : mo.value = some ov)
    (h10 : ∀ l ∈ cont, pyIsSpace (pyHead l) = true ∧ pyStrip l ≠ []) :
    (parseLines strict ps fname (pre ++ ol :: cont)).1 = none ∧
    cpGet (parseLines strict ps fname (pre ++ ol :: cont)).2 s (pyRstrip mo.oname)
      = .ok (.vStr (joinNL (procOptval mo.vi ov :: cont.map pyStrip))) := by
  have hg : RS.curGet (⟨ss0, df, some (.sect s), opt0, ln + 1, [], none⟩ : RS) NAMEKEY
      = some (.vStr SETUP) := by
    show (secGet? ss0 s).bind (fun d2 => odGet? d2 NAMEKEY) = some (.vStr SETUP)
    rw [h2, Option.some_bind, h3]
  have h0 : step strict ⟨ss0, df, some (.sect s), opt0, ln, [], none⟩ ol
      = stepA strict ⟨ss0, df, some (.sect s), opt0, ln + 1, [], none⟩ ol := rfl
  have hstep : step strict ⟨ss0, df, some (.sect s), opt0, ln, [], none⟩ ol
      = ⟨secSet ss0 s (odSet d (pyRstrip mo.oname) (.vList [procOptval mo.vi ov])),
         df, some (.sect s), some (pyRstrip mo.oname), ln + 1, [], none⟩ := by
    rw [h0, stepA_fall _ _ _ h4 h5,
      fallbody_noncont strict ⟨ss0, df, some (.sect s), opt0, ln + 1, [], none⟩ ol
        (fun hcon => by
          have hx := hcon.1
          rw [h6] at hx
          exact Bool.noConfusion hx),
      headerOrOption_option strict ⟨ss0, df, some (.sect s), opt0, ln + 1, [], none⟩
        ol (.sect s) h7 rfl hg,
      doOption_value strict ⟨ss0, df, some (.sect s), opt0, ln + 1, [], none⟩ ol mo ov
        h8 h9,
      curSet_sect ⟨ss0, df, some (.sect s), opt0, ln + 1, [], none⟩ s d
        (pyRstrip mo.oname) (.vList [procOptval mo.vi ov]) rfl h2]
  have hrun : runLines strict (initRS ps) (pre ++ ol :: cont)
      = ⟨secSet ss0 s (odSet d (pyRstrip mo.oname)
          (.vList (procOptval mo.vi ov :: cont.map pyStrip))), df,
         some (.sect s), some (pyRstrip mo.oname), ln + 1 + cont.length, [], none⟩ := by
    rw [runLines_append, h1, runLines_cons, hstep,
      runLines_cont strict s (pyRstrip mo.oname) cont ss0 d df (ln + 1)
        [procOptval mo.vi ov] h10, List.singleton_append]
  have hout : parseLines strict ps fname (pre ++ ol :: cont)
      = (none, joinAll ⟨secSet ss0 s (odSet d (pyRstrip mo.oname)
          (.vList (procOptval mo.vi ov :: cont.map pyStrip))), df⟩) := by
    unfold parseLines
    rw [hrun]
    rfl
  refine ⟨?_, ?_⟩
  · rw [hout]
  · rw [hout]
    exact cpGet_hit _ s (pyRstrip mo.oname)
      (joinOd (odSet d (pyRstrip mo.oname)
        (.vList (procOptval mo.vi ov :: cont.map pyStrip))))
      (.vStr (joinNL (procOptval mo.vi ov :: cont.map pyStrip)))
      (by
        show secGet? ((secSet ss0 s (odSet d (pyRstrip mo.oname)
            (.vList (procOptval mo.vi ov :: cont.map pyStrip)))).map
            (fun nd => (nd.1, joinOd nd.2))) s = _
        rw [secGet?_join, secGet?_secSet_self]
        rfl)
      (by
        rw [odGet?_joinOd, odGet?_odSet_self]
        rfl)

/-- C10, witness: in `[Setup]` the option line `AppName=My` followed by
the indented line `  Prog` yields the value `My\nProg`. -/
theorem C10_continuation_join_witness :
    (parseLines true ⟨[], []⟩ "f".data
        ["[Setup]\n".data, "AppName=My\n".data, "  Prog\n".data]).1 = none ∧
    cpGet (parseLines true ⟨[], []⟩ "f".data
        ["[Setup]\n".data, "AppName=My\n".data, "  Prog\n".data]).2
        "Setup".data "AppName".data
      = .ok (.vStr "My\nProg".data) := by
  have h := C10_continuation_join true ⟨[], []⟩ "f".data
    ["[Setup]\n".data] "AppName=My\n".data ["  Prog\n".data]
    [("Setup".data, [(NAMEKEY, .vStr SETUP)])] [(NAMEKEY, .vStr SETUP)] []
    none 1 "Setup".data ⟨"AppName".data, some '=', some "My".data⟩ "My".data
    (by decide) (by decide) (by decide) (by decide) (by decide) (by decide)
    (by decide) (by decide) (by decide) (by decide)
  have e : ["[Setup]\n".data] ++ "AppName=My\n".data :: ["  Prog\n".data]
      = ["[Setup]\n".data, "AppName=My\n".data, "  Prog\n".data] := rfl
  rw [e] at h
  have e2 : pyRstrip (⟨"AppName".data, some '=', some "My".data⟩ : OptMo).oname
      = "AppName".data := by decide
  rw [e2] at h
  refine ⟨h.1, ?_⟩
  rw [h.2]
  decide

/-- C3, witness: the amended statement on `[Dirs]\n` followed by the
comment line `# c\n`, which in content mode is captured verbatim rather
than skipped. -/
theorem C3_content_capture_witness :
    blockOf (stateAt true ⟨[], []⟩ ["[Dirs]\n".data, "# c\n".data] 2) "Dirs".data
      = blockOf (stateAt true ⟨[], []⟩ ["[Dirs]\n".data, "# c\n".data] 1) "Dirs".data
        ++ "# c\n".data ∧
    (stateAt true ⟨[], []⟩ ["[Dirs]\n".data, "# c\n".data] 2).errs = [] := by
  have h := C3_content_capture_amended true ⟨[], []⟩
      ["[Dirs]\n".data, "# c\n".data] 1 "Dirs".data (by decide) (by decide) (by decide)
      (by decide) (by decide) (Or.inl (by decide)) (by decide) (by decide) (by decide)
  refine ⟨h.1, ?_⟩
  rw [h.2.1]
  decide

lemma curSet_errs (rs : RS) (k : Str) (v : Val) : (rs.curSet k v).errs = rs.errs := by
  rcases rs with ⟨ss, df, cur, opt, ln, er, ha⟩
  rcases cur with _ | c
  · rfl
  · rcases c with _ | n
    · rfl
    · show (match secGet? ss n with
        | none => (⟨ss, df, some (.sect n), opt, ln, er, ha⟩ : RS)
        | some d =>
          (⟨secSet ss n (odSet d k v), df, some (.sect n), opt, ln, er, ha⟩ : RS)).errs
        = er
      rcases hd : secGet? ss n with _ | d
      · rfl
      · rfl

lemma curSet_lineno (rs : RS) (k : Str) (v : Val) :
    (rs.curSet k v).lineno = rs.lineno := by
  rcases rs with ⟨ss, df, cur, opt, ln, er, ha⟩
  rcases cur with _ | c
  · rfl
  · rcases c with _ | n
    · rfl
    · show (match secGet? ss n with
        | none => (⟨ss, df, some (.sect n), opt, ln, er, ha⟩ : RS)
        | some d =>
          (⟨secSet ss n (odSet d k v), df, some (.sect n), opt, ln, er, ha⟩ : RS)).lineno
        = ln
      rcases hd : secGet? ss n with _ | d
      · rfl
      · rfl

lemma contLine_errs (rs : RS) (l : Str) : (contLine rs l).errs = rs.errs := by
  rcases rs with ⟨ss, df, cur, opt, ln, er, ha⟩
  unfold contLine
  by_cases hs : pyStrip l = []
  · rw [if_pos hs]
  · rw [if_neg hs]
    rcases opt with _ | onm
    · rfl
    · show (match RS.curGet ⟨ss, df, cur, some onm, ln, er, ha⟩ onm with
        | some (.vList lst2) =>
          RS.curSet ⟨ss, df, cur, some onm, ln, er, ha⟩ onm (.vList (lst2 ++ [pyStrip l]))
        | some _ => (⟨ss, df, cur, some onm, ln, er, some .attrErr⟩ : RS)
        | none => (⟨ss, df, cur, some onm, ln, er, some (.keyErr onm)⟩ : RS)).errs = er
      rcases hg : RS.curGet ⟨ss, df, cur, some onm, ln, er, ha⟩ onm with _ | v
      · rfl
      · rcases v with s2 | lst | _
        · rfl
        · exact curSet_errs ⟨ss, df, cur, some onm, ln, er, ha⟩ onm _
        · rfl

lemma contLine_lineno (rs : RS) (l : Str) : (contLine rs l).lineno = rs.lineno := by
  rcases rs with ⟨ss, df, cur, opt, ln, er, ha⟩
  unfold contLine
  by_cases hs : pyStrip l = []
  · rw [if_pos hs]
  · rw [if_neg hs]
    rcases opt with _ | onm
    · rfl
    · show (match RS.curGet ⟨ss, df, cur, some onm, ln, er, ha⟩ onm with
        | some (.vList lst2) =>
          RS.curSet ⟨ss, df, cur, some onm, ln, er, ha⟩ onm (.vList (lst2 ++ [pyStrip l]))
        | some _ => (⟨ss, df, cur, some onm, ln, er, some .attrErr⟩ : RS)
        | none => (⟨ss, df, cur, some onm, ln, er, some (.keyErr onm)⟩ : RS)).lineno = ln
      rcases hg : RS.curGet ⟨ss, df, cur, some onm, ln, er, ha⟩ onm with _ | v
      · rfl
      · rcases v with s2 | lst | _
        · rfl
        · exact curSet_lineno ⟨ss, df, cur, some onm, ln, er, ha⟩ onm _
        · rfl

lemma doHeader_errs (rs : RS) (n : Str) : (doHeader rs n).errs = rs.errs := by
  unfold doHeader
  by_cases h1 : secHas rs.sections n
  · rw [if_pos h1]
  · rw [if_neg h1]
    by_cases h2 : n = DEFAULTSECT
    · rw [if_pos h2]
    · rw [if_neg h2]

lemma doHeader_lineno (rs : RS) (n : Str) : (doHeader rs n).lineno = rs.lineno := by
  unfold doHeader
  by_cases h1 : secHas rs.sections n
  · rw [if_pos h1]
  · rw [if_neg h1]
    by_cases h2 : n = DEFAULTSECT
    · rw [if_pos h2]
    · rw [if_neg h2]

lemma doCapture_errs (rs : RS) (l : Str) : (doCapture rs l).errs = rs.errs := by
  unfold doCapture
  rcases hg : rs.curGet CONTENTBLOCK with _ | v
  · exact curSet_errs rs CONTENTBLOCK _
  · rcases v with b | lst | _
    · exact curSet_errs rs CONTENTBLOCK _
    · rfl
    · rfl

lemma doCapture_lineno (rs : RS) (l : Str) : (doCapture rs l).lineno = rs.lineno := by
  unfold doCapture
  rcases hg : rs.curGet CONTENTBLOCK with _ | v
  · exact curSet_lineno rs CONTENTBLOCK _
  · rcases v with b | lst | _
    · exact curSet_lineno rs CONTENTBLOCK _
    · rfl
    · rfl

lemma doOption_errs_some (strict : Bool) (rs : RS) (l : Str) (mo : OptMo)
    (hm : optMatch strict (contOf l) = some mo) :
    (doOption strict rs l).errs = rs.errs := by
  unfold doOption
  rw [hm]
  show (match mo.value with
    | some ov2 =>
      { rs.curSet (pyRstrip mo.oname) (.vList [procOptval mo.vi ov2]) with
        optname := some (pyRstrip mo.oname) }
    | none =>
      { rs.curSet (pyRstrip mo.oname) .vNone with
        optname := some (pyRstrip mo.oname) }).errs = rs.errs
  rcases hv : mo.value with _ | ov
  · exact curSet_errs rs (pyRstrip mo.oname) _
  · exact curSet_errs rs (pyRstrip mo.oname) _

lemma doOption_lineno_some (strict : Bool) (rs : RS) (l : Str) (mo : OptMo)
    (hm : optMatch strict (contOf l) = some mo) :
    (doOption strict rs l).lineno = rs.lineno := by
  unfold doOption
  rw [hm]
  show (match mo.value with
    | some ov2 =>
      { rs.curSet (pyRstrip mo.oname) (.vList [procOptval mo.vi ov2]) with
        optname := some (pyRstrip mo.oname) }
    | none =>
      { rs.curSet (pyRstrip mo.oname) .vNone with
        optname := some (pyRstrip mo.oname) }).lineno = rs.lineno
  rcases hv : mo.value with _ | ov
  · exact curSet_lineno rs (pyRstrip mo.oname) _
  · exact curSet_lineno rs (pyRstrip mo.oname) _

lemma doOption_errs_none (strict : Bool) (rs : RS) (l : Str)
    (hm : optMatch strict (contOf l) = none) :
    doOption strict rs l = { rs with errs := rs.errs ++ [(rs.lineno, pyRepr l)] } := by
  unfold doOption
  rw [hm]

lemma stepA_errs (strict : Bool) (rs : RS) (l : Str) :
    (stepA strict rs l).errs
      = rs.errs ++ (if malCond strict rs l then [(rs.lineno, pyRepr l)] else []) := by
  by_cases hb : blankOrComment l
  · rw [if_neg (fun hm => hm.1 hb), List.append_nil]
    rcases hc : rs.cursect with _ | c
    · rw [stepA_blank_none strict rs l hb hc]
    · rcases hn : rs.curGet NAMEKEY with _ | v
      · rw [stepA_blank_keyerr strict rs l c hb hc hn]
      · by_cases hv : v = .vStr SETUP
        · subst hv
          rw [stepA_blank_setup strict rs l c hb hc hn]
        · rw [stepA_blank_content strict rs l c v hb hc hn hv]
          by_cases hcont : (pyIsSpace (pyHead l) = true ∧ rs.cursect.isSome = true ∧
              rs.optname.isSome = true)
          · rw [fallbody_cont strict rs l ⟨hcont.1, hcont.2.1, hcont.2.2⟩]
            exact contLine_errs rs l
          · rw [fallbody_noncont strict rs l hcont]
            rcases hs : sectMatch l with _ | n
            · rw [headerOrOption_capture strict rs l c v hs hc hn hv]
              exact doCapture_errs rs l
            · rw [headerOrOption_header strict rs l n hs]
              exact doHeader_errs rs n
  · by_cases hr : remLine l
    · rw [if_neg (fun hm => hm.2.1 hr), List.append_nil, stepA_rem strict rs l hb hr]
    · rw [stepA_fall strict rs l hb hr]
      by_cases hcont : (pyIsSpace (pyHead l) = true ∧ rs.cursect.isSome = true ∧
          rs.optname.isSome = true)
      · rw [if_neg (fun hm => hm.2.2.1 hcont), List.append_nil,
          fallbody_cont strict rs l ⟨hcont.1, hcont.2.1, hcont.2.2⟩]
        exact contLine_errs rs l
      · rw [fallbody_noncont strict rs l hcont]
        rcases hs : sectMatch l with _ | n
        · rcases hc : rs.cursect with _ | c
          · rw [headerOrOption_missing strict rs l hs hc,
              if_neg (fun hm => by
                have hx := hm.2.2.2.2.1
                rw [hc] at hx
                exact Bool.noConfusion hx),
              List.append_nil]
          · rcases hn : rs.curGet NAMEKEY with _ | v
            · rw [headerOrOption_keyerr strict rs l c hs hc hn,
                if_neg (fun hm => by
                  have hx := hm.2.2.2.2.2.1
                  rw [hn] at hx
                  exact Option.noConfusion hx),
                List.append_nil]
            · by_cases hv : v = .vStr SETUP
              · subst hv
                rw [headerOrOption_option strict rs l c hs hc hn]
                rcases hm2 : optMatch strict (contOf l) with _ | mo
                · rw [doOption_errs_none strict rs l hm2,
                    if_pos ⟨hb, hr, hcont, hs, by rw [hc]; rfl, hn, hm2⟩]
                · rw [if_neg (fun hm => by
                      have hx := hm.2.2.2.2.2.2
                      rw [hm2] at hx
                      exact Option.noConfusion hx),
                    List.append_nil]
                  exact doOption_errs_some strict rs l mo hm2
              · rw [headerOrOption_capture strict rs l c v hs hc hn hv,
                  if_neg (fun hm => by
                    have hx := hm.2.2.2.2.2.1
                    rw [hn] at hx
                    exact hv (Option.some.inj hx)),
                  List.append_nil]
                exact doCapture_errs rs l
        · rw [headerOrOption_header strict rs l n hs,
            if_neg (fun hm => by
              have hx := hm.2.2.2.1
              rw [hs] at hx
              exact Option.noConfusion hx),
            List.append_nil]
          exact doHeader_errs rs n

lemma fallbody_lineno (strict : Bool) (rs : RS) (l : Str) :
    (fallbody strict rs l).lineno = rs.lineno := by
  by_cases hcont : (pyIsSpace (pyHead l) = true ∧ rs.cursect.isSome = true ∧
      rs.optname.isSome = true)
  · rw [fallbody_cont strict rs l ⟨hcont.1, hcont.2.1, hcont.2.2⟩]
    exact contLine_lineno rs l
  · rw [fallbody_noncont strict rs l hcont]
    rcases hs : sectMatch l with _ | n
    · rcases hc : rs.cursect with _ | c
      · rw [headerOrOption_missing strict rs l hs hc]
      · rcases hn : rs.curGet NAMEKEY with _ | v
        · rw [headerOrOption_keyerr strict rs l c hs hc hn]
        · by_cases hv : v = .vStr SETUP
          · subst hv
            rw [headerOrOption_option strict rs l c hs hc hn]
            rcases hm2 : optMatch strict (contOf l) with _ | mo
            · rw [doOption_errs_none strict rs l hm2]
            · exact doOption_lineno_some strict rs l mo hm2
          · rw [headerOrOption_capture strict rs l c v hs hc hn hv]
            exact doCapture_lineno rs l
    · rw [headerOrOption_header strict rs l n hs]
      exact doHeader_lineno rs n

lemma stepA_lineno (strict : Bool) (rs : RS) (l : Str) :
    (stepA strict rs l).lineno = rs.lineno := by
  by_cases hb : blankOrComment l
  · rcases hc : rs.cursect with _ | c
    · rw [stepA_blank_none strict rs l hb hc]
    · rcases hn : rs.curGet NAMEKEY with _ | v
      · rw [stepA_blank_keyerr strict rs l c hb hc hn]
      · by_cases hv : v = .vStr SETUP
        · subst hv
          rw [stepA_blank_setup strict rs l c hb hc hn]
        · rw [stepA_blank_content strict rs l c v hb hc hn hv]
          exact fallbody_lineno strict rs l
  · by_cases hr : remLine l
    · rw [stepA_rem strict rs l hb hr]
    · rw [stepA_fall strict rs l hb hr]
      exact fallbody_lineno strict rs l

lemma step_errs (strict : Bool) (rs : RS) (l : Str) (h : rs.halt = none) :
    (step strict rs l).errs
      = rs.errs ++ (if malCond strict rs l then [(rs.lineno + 1, pyRepr l)] else []) := by
  rw [step_eq_stepA strict rs l h]
  exact stepA_errs strict { rs with lineno := rs.lineno + 1 } l

lemma step_lineno (strict : Bool) (rs : RS) (l : Str) (h : rs.halt = none) :
    (step strict rs l).lineno = rs.lineno + 1 := by
  rw [step_eq_stepA strict rs l h]
  exact stepA_lineno strict { rs with lineno := rs.lineno + 1 } l

/-- Under a scan that never aborts, the line counter advances by exactly
one per line. -/
lemma runLines_lineno (strict : Bool) : ∀ (lines : List Str) (rs : RS),
    (runLines strict rs lines).halt = none →
    (runLines strict rs lines).lineno = rs.lineno + lines.length := by
  intro lines
  induction lines with
  | nil =>
    intro rs h
    simp [runLines_nil]
  | cons l ls ih =>
    intro rs h
    rw [runLines_cons] at h ⊢
    have h1 : (step strict rs l).halt = none := halt_none_of_runLines strict _ ls h
    have h0 : rs.halt = none := halt_none_of_step strict rs l h1
    rw [ih _ h, step_lineno strict rs l h0]
    simp only [List.length_cons]
    omega

/-- Under a scan that never aborts, the accumulated error pairs are
exactly one `(lineno, repr(line))` pair per line satisfying `malCond` at
the state the scan reached before it, in file order. -/
lemma runLines_errs (strict : Bool) : ∀ (lines : List Str) (rs : RS),
    (runLines strict rs lines).halt = none →
    (runLines strict rs lines).errs
      = rs.errs ++ (List.range lines.length).filterMap (fun i =>
          if malCond strict (runLines strict rs (lines.take i)) (lines.getD i [])
          then some (rs.lineno + (i + 1), pyRepr (lines.getD i []))
          else none) := by
  intro lines
  induction lines with
  | nil =>
    intro rs h
    simp [runLines_nil]
  | cons l ls ih =>
    intro rs h
    rw [runLines_cons] at h ⊢
    have h1 : (step strict rs l).halt = none := halt_none_of_runLines strict _ ls h
    have h0 : rs.halt = none := halt_none_of_step strict rs l h1
    rw [ih (step strict rs l) h, step_errs strict rs l h0, List.append_assoc]
    congr 1
    have hg : (fun i =>
          if malCond strict (runLines strict (step strict rs l) (ls.take i)) (ls.getD i [])
          then some ((step strict rs l).lineno + (i + 1), pyRepr (ls.getD i []))
          else none)
        = (fun i =>
          if malCond strict (runLines strict (step strict rs l) (ls.take i)) (ls.getD i [])
          then some (rs.lineno + (i + 1 + 1), pyRepr (ls.getD i []))
          else none) := by
      funext i
      rw [step_lineno strict rs l h0,
        show rs.lineno + 1 + (i + 1) = rs.lineno + (i + 1 + 1) from by omega]
    rw [hg, List.length_cons, List.range_succ_eq_map, List.filterMap_cons,
      List.filterMap_map]
    by_cases hm : malCond strict rs l
    · rw [if_pos hm]
      have hf0 : (if malCond strict (runLines strict rs (List.take 0 (l :: ls)))
            ((l :: ls).getD 0 []) then
            some (rs.lineno + (0 + 1), pyRepr ((l :: ls).getD 0 []))
          else none) = some (rs.lineno + 1, pyRepr l) := by
        show (if malCond strict rs l then some (rs.lineno + 1, pyRepr l) else none)
          = some (rs.lineno + 1, pyRepr l)
        rw [if_pos hm]
      rw [hf0]
      rfl
    · rw [if_neg hm, List.nil_append]
      have hf0 : (if malCond strict (runLines strict rs (List.take 0 (l :: ls)))
            ((l :: ls).getD 0 []) then
            some (rs.lineno + (0 + 1), pyRepr ((l :: ls).getD 0 []))
          else none) = (none : Option (Nat × Str)) := by
        show (if malCond strict rs l then some (rs.lineno + 1, pyRepr l) else none)
          = none
        rw [if_neg hm]
      rw [hf0]
      rfl

/-- C7, counterexample: the pair stored for the malformed line `bogus`
carries Python 2 `repr(line)` (iss.py line 451) — quotes added and the
newline escaped — not the raw line text the claim describes. -/
theorem C7_counterexample :
    (parseLines true ⟨[], []⟩ "f".data ["[Setup]\n".data, "bogus\n".data]).1
      = some (.parsingError "f".data [(2, pyRepr "bogus\n".data)]) ∧
    pyRepr "bogus\n".data ≠ "bogus\n".data ∧
    pyRepr "bogus\n".data = '\x27' :: ("bogus".data ++ ['\\', 'n', '\x27']) := by
  decide

/-- C7, amended: when the scan runs to end of input without a fatal abort,
every line of the file is visited, and a nonempty error accumulation
raises exactly one aggregated `ParsingError` carrying the full ordered
list of pairs — one pair per malformed line, pairing the 1-based line
number with `repr` of the raw line (not the raw line itself). -/
theorem C7_aggregated_errors_amended (strict : Bool) (ps : PState) (fname : Str)
    (lines : List Str)
    (hh : (runLines strict (initRS ps) lines).halt = none)
    (hne : errList strict ps lines ≠ []) :
    (parseLines strict ps fname lines).1
      = some (.parsingError fname (errList strict ps lines)) := by
  have he : (runLines strict (initRS ps) lines).errs = errList strict ps lines := by
    rw [runLines_errs strict lines (initRS ps) hh]
    rw [show ((initRS ps).errs : List (Nat × Str)) = [] from rfl, List.nil_append]
    unfold errList
    congr 1
    funext i
    show (if malCond strict (runLines strict (initRS ps) (lines.take i)) (lines.getD i [])
      then some (0 + (i + 1), pyRepr (lines.getD i []))
      else none) = _
    rw [Nat.zero_add]
    rfl
  rcases hrs : runLines strict (initRS ps) lines with ⟨ss, df, cur, opt, ln, er, ha⟩
  rw [hrs] at hh he
  have hh2 : ha = none := hh
  have he2 : er = errList strict ps lines := he
  subst hh2
  subst he2
  unfold parseLines
  rw [hrs]
  show (if errList strict ps lines = []
      then ((none : Option PErr), joinAll ⟨ss, df⟩)
      else (some (.parsingError fname (errList strict ps lines)), ⟨ss, df⟩)).1
    = some (.parsingError fname (errList strict ps lines))
  rw [if_neg hne]

/-- C7, witness: a 12-line file whose malformed lines are lines 5, 9 and
12; the scan reaches end of input and raises one `ParsingError` listing
exactly those three lines, with `repr` applied to each. -/
theorem C7_aggregated_errors_witness :
    (runLines true (initRS ⟨[], []⟩) ["[Setup]\n".data, "a=1\n".data, "\n".data,
        "; c\n".data, "=bad\n".data, "b=2\n".data, "rem x\n".data, "# z\n".data,
        ":bad\n".data, "c=3\n".data, "  more\n".data, "=ugh".data]).halt = none ∧
    errList true ⟨[], []⟩ ["[Setup]\n".data, "a=1\n".data, "\n".data,
        "; c\n".data, "=bad\n".data, "b=2\n".data, "rem x\n".data, "# z\n".data,
        ":bad\n".data, "c=3\n".data, "  more\n".data, "=ugh".data] ≠ [] ∧
    (parseLines true ⟨[], []⟩ "f".data ["[Setup]\n".data, "a=1\n".data, "\n".data,
        "; c\n".data, "=bad\n".data, "b=2\n".data, "rem x\n".data, "# z\n".data,
        ":bad\n".data, "c=3\n".data, "  more\n".data, "=ugh".data]).1
      = some (.parsingError "f".data [(5, pyRepr "=bad\n".data),
          (9, pyRepr ":bad\n".data), (12, pyRepr "=ugh".data)]) := by
  have h := C7_aggregated_errors_amended true ⟨[], []⟩ "f".data
    ["[Setup]\n".data, "a=1\n".data, "\n".data,
     "; c\n".data, "=bad\n".data, "b=2\n".data, "rem x\n".data, "# z\n".data,
     ":bad\n".data, "c=3\n".data, "  more\n".data, "=ugh".data]
    (by decide) (by decide)
  refine ⟨by decide, by decide, ?_⟩
  rw [h]
  decide

lemma nlTab_no_nl (s : Str) (h : '\n' ∉ s) : nlTab s = s := by
  induction s with
  | nil => rfl
  | cons c cs ih =>
    rw [nlTab_cons, if_neg (fun hc => h (by simp [hc])),
      ih (fun hc => h (List.mem_cons_of_mem c hc)), List.singleton_append]

lemma odGet?_append_left (d e : Od) (k : Str) (v : Val) (h : odGet? d k = some v) :
    odGet? (d ++ e) k = some v := by
  induction d with
  | nil => exact absurd h (by simp [odGet?])
  | cons kv rest ih =>
    rcases kv with ⟨k2, v2⟩
    have h2 : (if k2 = k then some v2 else odGet? rest k) = some v := h
    rw [List.cons_append]
    show (if k2 = k then some v2 else odGet? (rest ++ e) k) = some v
    by_cases hk : k2 = k
    · rw [if_pos hk] at h2 ⊢; exact h2
    · rw [if_neg hk] at h2 ⊢; exact ih h2

lemma odGet?_append_none (d e : Od) (k : Str) (h1 : odGet? d k = none)
    (h2 : odGet? e k = none) : odGet? (d ++ e) k = none := by
  induction d with
  | nil => simpa using h2
  | cons kv rest ih =>
    rcases kv with ⟨k2, v2⟩
    have h3 : (if k2 = k then some v2 else odGet? rest k) = none := h1
    rw [List.cons_append]
    show (if k2 = k then some v2 else odGet? (rest ++ e) k) = none
    by_cases hk : k2 = k
    · rw [if_pos hk] at h3; exact Option.noConfusion h3
    · rw [if_neg hk] at h3
      rw [if_neg hk]
      exact ih h3

lemma odSet_fresh (d : Od) (k : Str) (v : Val) (h : odGet? d k = none) :
    odSet d k v = d ++ [(k, v)] := by
  induction d with
  | nil => rfl
  | cons kv rest ih =>
    rcases kv with ⟨k2, v2⟩
    have h2 : (if k2 = k then some v2 else odGet? rest k) = none := h
    rw [List.cons_append]
    show (if k2 = k then (k2, v) :: rest else (k2, v2) :: odSet rest k v)
      = (k2, v2) :: (rest ++ [(k, v)])
    by_cases hk : k2 = k
    · rw [if_pos hk] at h2; exact Option.noConfusion h2
    · rw [if_neg hk] at h2
      rw [if_neg hk, ih h2]

lemma odSet_get_self (d : Od) (k : Str) (v : Val) (h : odGet? d k = some v) :
    odSet d k v = d := by
  induction d with
  | nil => exact absurd h (by simp [odGet?])
  | cons kv rest ih =>
    rcases kv with ⟨k2, v2⟩
    have h2 : (if k2 = k then some v2 else odGet? rest k) = some v := h
    show (if k2 = k then (k2, v) :: rest else (k2, v2) :: odSet rest k v)
      = (k2, v2) :: rest
    by_cases hk : k2 = k
    · rw [if_pos hk] at h2
      rw [if_pos hk, ← Option.some.inj h2]
    · rw [if_neg hk] at h2
      rw [if_neg hk, ih h2]

lemma secGet?_append_sing_self (ss : Sects) (n : Str) (d : Od)
    (h : secGet? ss n = none) : secGet? (ss ++ [(n, d)]) n = some d := by
  induction ss with
  | nil =>
    show (if n = n then some d else secGet? [] n) = some d
    rw [if_pos rfl]
  | cons nd rest ih =>
    rcases nd with ⟨n2, d2⟩
    have h2 : (if n2 = n then some d2 else secGet? rest n) = none := h
    rw [List.cons_append]
    show (if n2 = n then some d2 else secGet? (rest ++ [(n, d)]) n) = some d
    by_cases hn : n2 = n
    · rw [if_pos hn] at h2; exact Option.noConfusion h2
    · rw [if_neg hn] at h2
      rw [if_neg hn]
      exact ih h2

lemma secSet_append_sing (ss : Sects) (n : Str) (d e : Od)
    (h : secGet? ss n = none) : secSet (ss ++ [(n, d)]) n e = ss ++ [(n, e)] := by
  induction ss with
  | nil =>
    show (if n = n then (n, e) :: [] else (n, d) :: secSet [] n e) = [(n, e)]
    rw [if_pos rfl]
  | cons nd rest ih =>
    rcases nd with ⟨n2, d2⟩
    have h2 : (if n2 = n then some d2 else secGet? rest n) = none := h
    rw [List.cons_append, List.cons_append]
    show (if n2 = n then (n2, e) :: (rest ++ [(n, d)])
        else (n2, d2) :: secSet (rest ++ [(n, d)]) n e)
      = (n2, d2) :: (rest ++ [(n, e)])
    by_cases hn : n2 = n
    · rw [if_pos hn] at h2; exact Option.noConfusion h2
    · rw [if_neg hn] at h2
      rw [if_neg hn, ih h2]

lemma secGet?_append_pair_ne (ss : Sects) (p : Str × Od) (m : Str)
    (h : p.1 ≠ m) (hm : secGet? ss m = none) : secGet? (ss ++ [p]) m = none := by
  rcases p with ⟨pn, pd⟩
  induction ss with
  | nil =>
    show (if pn = m then some pd else secGet? [] m) = none
    rw [if_neg h]
    rfl
  | cons nd rest ih =>
    rcases nd with ⟨n2, d2⟩
    have h2 : (if n2 = m then some d2 else secGet? rest m) = none := hm
    rw [List.cons_append]
    show (if n2 = m then some d2 else secGet? (rest ++ [(pn, pd)]) m) = none
    by_cases hn : n2 = m
    · rw [if_pos hn] at h2; exact Option.noConfusion h2
    · rw [if_neg hn] at h2
      rw [if_neg hn]
      exact ih h2

lemma headerLineOf_eq (n : Str) : headerLineOf n = ('[' :: (n ++ [']'])) ++ ['\n'] := by
  unfold headerLineOf
  simp

lemma pyHead_headerLineOf (n : Str) : pyHead (headerLineOf n) = '[' := rfl

lemma headerLine_not_blank (n : Str) : ¬ blankOrComment (headerLineOf n) := by
  rintro (h | h | h)
  · have h2 := (pyStrip_nil_iff (headerLineOf n)).mp h '[' (by unfold headerLineOf; simp)
    exact absurd h2 (by decide)
  · rw [pyHead_headerLineOf] at h
    exact absurd h (by decide)
  · rw [pyHead_headerLineOf] at h
    exact absurd h (by decide)

lemma headerLine_not_rem (n : Str) : ¬ remLine (headerLineOf n) := by
  rintro ⟨-, h | h⟩
  · rw [pyHead_headerLineOf] at h
    exact absurd h (by decide)
  · rw [pyHead_headerLineOf] at h
    exact absurd h (by decide)

lemma pyIsSpace_headerLineOf (n : Str) : pyIsSpace (pyHead (headerLineOf n)) = false := by
  rw [pyHead_headerLineOf]
  decide

lemma splitLines_headerLine (n : Str) (h : '\n' ∉ n) (rest : Str) :
    splitLines (headerLineOf n ++ rest) = headerLineOf n :: splitLines rest := by
  rw [headerLineOf_eq]
  exact splitLines_line_append ('[' :: (n ++ [']'])) rest (by
    intro hc
    rcases List.mem_cons.mp hc with h1 | h1
    · exact absurd h1 (by decide)
    · rcases List.mem_append.mp h1 with h2 | h2
      · exact h h2
      · exact absurd h2 (by decide))

/-- Processing a fresh section header: a new dictionary holding only
`__name__` is appended and `optname` is reset (iss.py lines 402-413). -/
lemma step_header (strict : Bool) (ss0 : Sects) (df : Od) (cur : Option CurRef)
    (opt : Option Str) (ln : Nat) (n : Str)
    (hs : sectMatch (headerLineOf n) = some n)
    (hfresh : secGet? ss0 n = none) (hnd : n ≠ DEFAULTSECT) :
    step strict ⟨ss0, df, cur, opt, ln, [], none⟩ (headerLineOf n)
      = ⟨ss0 ++ [(n, [(NAMEKEY, .vStr n)])], df, some (.sect n), none, ln + 1, [], none⟩ := by
  have h0 : step strict ⟨ss0, df, cur, opt, ln, [], none⟩ (headerLineOf n)
      = stepA strict ⟨ss0, df, cur, opt, ln + 1, [], none⟩ (headerLineOf n) := rfl
  rw [h0, stepA_fall _ _ _ (headerLine_not_blank n) (headerLine_not_rem n),
    fallbody_noncont strict ⟨ss0, df, cur, opt, ln + 1, [], none⟩ (headerLineOf n)
      (fun hcon => by
        have hx := hcon.1
        rw [pyIsSpace_headerLineOf n] at hx
        exact Bool.noConfusion hx),
    headerOrOption_header strict _ _ n hs]
  unfold doHeader
  rw [if_neg (fun hc : secHas (⟨ss0, df, cur, opt, ln + 1, [], none⟩ : RS).sections n = true => by
      have hc2 : (secGet? ss0 n).isSome = true := hc
      rw [hfresh] at hc2
      exact Bool.noConfusion hc2)]
  rw [if_neg hnd]

/-- Processing a Setup option line with a value (iss.py lines 423-443). -/
lemma step_option (strict : Bool) (ss0 : Sects) (df : Od) (s : Str) (d : Od)
    (opt0 : Option Str) (ln : Nat) (ol : Str) (mo : OptMo) (ov : Str)
    (h2 : secGet? ss0 s = some d)
    (h3 : odGet? d NAMEKEY = some (.vStr SETUP))
    (h4 : ¬ blankOrComment ol) (h5 : ¬ remLine ol)
    (h6 : pyIsSpace (pyHead ol) = false)
    (h7 : sectMatch ol = none)
    (h8 : optMatch strict (contOf ol) = some mo) (h9 : mo.value = some ov) :
    step strict ⟨ss0, df, some (.sect s), opt0, ln, [], none⟩ ol
      = ⟨secSet ss0 s (odSet d (pyRstrip mo.oname) (.vList [procOptval mo.vi ov])),
         df, some (.sect s), some (pyRstrip mo.oname), ln + 1, [], none⟩ := by
  have hg : RS.curGet (⟨ss0, df, some (.sect s), opt0, ln + 1, [], none⟩ : RS) NAMEKEY
      = some (.vStr SETUP) := by
    show (secGet? ss0 s).bind (fun d2 => odGet? d2 NAMEKEY) = some (.vStr SETUP)
    rw [h2, Option.some_bind, h3]
  have h0 : step strict ⟨ss0, df, some (.sect s), opt0, ln, [], none⟩ ol
      = stepA strict ⟨ss0, df, some (.sect s), opt0, ln + 1, [], none⟩ ol := rfl
  rw [h0, stepA_fall _ _ _ h4 h5,
    fallbody_noncont strict ⟨ss0, df, some (.sect s), opt0, ln + 1, [], none⟩ ol
      (fun hcon => by
        have hx := hcon.1
        rw [h6] at hx
        exact Bool.noConfusion hx),
    headerOrOption_option strict ⟨ss0, df, some (.sect s), opt0, ln + 1, [], none⟩
      ol (.sect s) h7 rfl hg,
    doOption_value strict ⟨ss0, df, some (.sect s), opt0, ln + 1, [], none⟩ ol mo ov
      h8 h9,
    curSet_sect ⟨ss0, df, some (.sect s), opt0, ln + 1, [], none⟩ s d
      (pyRstrip mo.oname) (.vList [procOptval mo.vi ov]) rfl h2]

/-- Capturing one line into an existing content block (iss.py line 420). -/
lemma step_capture (strict : Bool) (ss0 : Sects) (df : Od) (n : Str) (dcur : Od)
    (ln : Nat) (l : Str) (acc : Str)
    (hfresh : secGet? ss0 n = none)
    (hs : sectMatch l = none) (hr : ¬ remLine l)
    (hn : odGet? dcur NAMEKEY = some (.vStr n)) (hv : n ≠ SETUP)
    (hcb : odGet? dcur CONTENTBLOCK = some (.vStr acc)) :
    step strict ⟨ss0 ++ [(n, dcur)], df, some (.sect n), none, ln, [], none⟩ l
      = ⟨ss0 ++ [(n, odSet dcur CONTENTBLOCK (.vStr (acc ++ l)))], df,
         some (.sect n), none, ln + 1, [], none⟩ := by
  have hsec : secGet? (ss0 ++ [(n, dcur)]) n = some dcur :=
    secGet?_append_sing_self ss0 n dcur hfresh
  have hcg : RS.curGet (⟨ss0 ++ [(n, dcur)], df, some (.sect n), none, ln + 1, [],
      none⟩ : RS) NAMEKEY = some (.vStr n) := by
    show (secGet? (ss0 ++ [(n, dcur)]) n).bind (fun d2 => odGet? d2 NAMEKEY) = _
    rw [hsec, Option.some_bind, hn]
  have hcg2 : RS.curGet (⟨ss0 ++ [(n, dcur)], df, some (.sect n), none, ln + 1, [],
      none⟩ : RS) CONTENTBLOCK = some (.vStr acc) := by
    show (secGet? (ss0 ++ [(n, dcur)]) n).bind (fun d2 => odGet? d2 CONTENTBLOCK) = _
    rw [hsec, Option.some_bind, hcb]
  have h0 : step strict ⟨ss0 ++ [(n, dcur)], df, some (.sect n), none, ln, [], none⟩ l
      = stepA strict ⟨ss0 ++ [(n, dcur)], df, some (.sect n), none, ln + 1, [],
          none⟩ l := rfl
  have hfall : fallbody strict ⟨ss0 ++ [(n, dcur)], df, some (.sect n), none, ln + 1,
        [], none⟩ l
      = ⟨ss0 ++ [(n, odSet dcur CONTENTBLOCK (.vStr (acc ++ l)))], df,
         some (.sect n), none, ln + 1, [], none⟩ := by
    rw [fallbody_noncont strict _ l (fun hcon => by
        have hx := hcon.2.2
        exact Bool.noConfusion hx),
      headerOrOption_capture strict _ l (.sect n) (.vStr n) hs rfl hcg
        (fun he => hv (Val.vStr.inj he)),
      doCapture_str _ l acc hcg2,
      curSet_sect _ n dcur CONTENTBLOCK (.vStr (acc ++ l)) rfl hsec]
    rw [secSet_append_sing ss0 n dcur _ hfresh]
  by_cases hb : blankOrComment l
  · rw [h0, stepA_blank_content strict _ l (.sect n) (.vStr n) hb rfl hcg
      (fun he => hv (Val.vStr.inj he)), hfall]
  · rw [h0, stepA_fall _ _ _ hb hr, hfall]

/-- Capturing the first line of a content block (the `cursect.get` default
of iss.py line 420). -/
lemma step_capture_fresh (strict : Bool) (ss0 : Sects) (df : Od) (n : Str)
    (dcur : Od) (ln : Nat) (l : Str)
    (hfresh : secGet? ss0 n = none)
    (hs : sectMatch l = none) (hr : ¬ remLine l)
    (hn : odGet? dcur NAMEKEY = some (.vStr n)) (hv : n ≠ SETUP)
    (hcb : odGet? dcur CONTENTBLOCK = none) :
    step strict ⟨ss0 ++ [(n, dcur)], df, some (.sect n), none, ln, [], none⟩ l
      = ⟨ss0 ++ [(n, odSet dcur CONTENTBLOCK (.vStr l))], df,
         some (.sect n), none, ln + 1, [], none⟩ := by
  have hsec : secGet? (ss0 ++ [(n, dcur)]) n = some dcur :=
    secGet?_append_sing_self ss0 n dcur hfresh
  have hcg : RS.curGet (⟨ss0 ++ [(n, dcur)], df, some (.sect n), none, ln + 1, [],
      none⟩ : RS) NAMEKEY = some (.vStr n) := by
    show (secGet? (ss0 ++ [(n, dcur)]) n).bind (fun d2 => odGet? d2 NAMEKEY) = _
    rw [hsec, Option.some_bind, hn]
  have hcg2 : RS.curGet (⟨ss0 ++ [(n, dcur)], df, some (.sect n), none, ln + 1, [],
      none⟩ : RS) CONTENTBLOCK = none := by
    show (secGet? (ss0 ++ [(n, dcur)]) n).bind (fun d2 => odGet? d2 CONTENTBLOCK) = _
    rw [hsec, Option.some_bind, hcb]
  have h0 : step strict ⟨ss0 ++ [(n, dcur)], df, some (.sect n), none, ln, [], none⟩ l
      = stepA strict ⟨ss0 ++ [(n, dcur)], df, some (.sect n), none, ln + 1, [],
          none⟩ l := rfl
  have hfall : fallbody strict ⟨ss0 ++ [(n, dcur)], df, some (.sect n), none, ln + 1,
        [], none⟩ l
      = ⟨ss0 ++ [(n, odSet dcur CONTENTBLOCK (.vStr l))], df,
         some (.sect n), none, ln + 1, [], none⟩ := by
    rw [fallbody_noncont strict _ l (fun hcon => by
        have hx := hcon.2.2
        exact Bool.noConfusion hx),
      headerOrOption_capture strict _ l (.sect n) (.vStr n) hs rfl hcg
        (fun he => hv (Val.vStr.inj he)),
      doCapture_fresh _ l hcg2,
      curSet_sect _ n dcur CONTENTBLOCK (.vStr l) rfl hsec]
    rw [secSet_append_sing ss0 n dcur _ hfresh]
  by_cases hb : blankOrComment l
  · rw [h0, stepA_blank_content strict _ l (.sect n) (.vStr n) hb rfl hcg
      (fun he => hv (Val.vStr.inj he)), hfall]
  · rw [h0, stepA_fall _ _ _ hb hr, hfall]

/-- Scanning the serialized option lines of the Setup section appends the
options, one pending one-element list each, in order. -/
lemma runSetupOpts (strict : Bool) :
    ∀ (opts : List (Str × Str)) (ss0 : Sects) (df acc : Od) (opt0 : Option Str)
      (ln : Nat),
    (∀ kv ∈ opts, setupOptWF strict kv.1 kv.2) →
    secGet? ss0 SETUP = none →
    odGet? acc NAMEKEY = some (.vStr SETUP) →
    (∀ kv ∈ opts, odGet? acc kv.1 = none) →
    (opts.map Prod.fst).Nodup →
    ∃ optF lnF,
    runLines strict ⟨ss0 ++ [(SETUP, acc)], df, some (.sect SETUP), opt0, ln, [], none⟩
        (opts.map (fun kv => optLineOf kv.1 kv.2))
      = ⟨ss0 ++ [(SETUP, acc ++ opts.map (fun kv => (kv.1, Val.vList [kv.2])))], df,
         some (.sect SETUP), optF, lnF, [], none⟩ := by
  intro opts
  induction opts with
  | nil =>
    intro ss0 df acc opt0 ln _ _ _ _ _
    exact ⟨opt0, ln, by simp [runLines_nil]⟩
  | cons kv opts ih =>
    intro ss0 df acc opt0 ln hWF hfresh hname hkeys hnd
    rcases kv with ⟨k, v⟩
    obtain ⟨hknl, hvnl, hblank, hrem, hsp, hsect, hopt, hrs, hproc⟩ := hWF (k, v) (by simp)
    have hsec : secGet? (ss0 ++ [(SETUP, acc)]) SETUP = some acc :=
      secGet?_append_sing_self ss0 SETUP acc hfresh
    have hstep := step_option strict (ss0 ++ [(SETUP, acc)]) df SETUP acc opt0 ln
      (optLineOf k v) ⟨k, some '=', some v⟩ v hsec hname hblank hrem hsp hsect hopt rfl
    have hk2 : pyRstrip (⟨k, some '=', some v⟩ : OptMo).oname = k := hrs
    have hv2 : procOptval (⟨k, some '=', some v⟩ : OptMo).vi v = v := hproc
    rw [hk2, hv2, odSet_fresh acc k (.vList [v]) (hkeys (k, v) (by simp)),
      secSet_append_sing ss0 SETUP acc (acc ++ [(k, Val.vList [v])]) hfresh] at hstep
    have hnd2 : (opts.map Prod.fst).Nodup := (List.nodup_cons.mp (by simpa using hnd)).2
    have hkne : k ∉ opts.map Prod.fst := (List.nodup_cons.mp (by simpa using hnd)).1
    obtain ⟨optF, lnF, hrun⟩ := ih ss0 df (acc ++ [(k, Val.vList [v])]) (some k) (ln + 1)
      (fun kv2 h2 => hWF kv2 (by simp [h2]))
      hfresh
      (odGet?_append_left acc [(k, Val.vList [v])] NAMEKEY _ hname)
      (fun kv2 h2 => by
        apply odGet?_append_none
        · exact hkeys kv2 (by simp [h2])
        · have hne : k ≠ kv2.1 := fun he =>
            hkne (by rw [he]; exact List.mem_map_of_mem Prod.fst h2)
          show (if k = kv2.1 then some (Val.vList [v]) else odGet? [] kv2.1) = none
          rw [if_neg hne]
          rfl)
      hnd2
    refine ⟨optF, lnF, ?_⟩
    rw [List.map_cons, runLines_cons, hstep, hrun, List.map_cons,
      List.append_assoc, List.singleton_append]

/-- Scanning content lines while a content-mode section already holds a
block appends them verbatim to the block. -/
lemma runCapture (strict : Bool) :
    ∀ (bls : List Str) (ss0 : Sects) (df : Od) (n : Str) (dcur : Od) (b0 : Str)
      (ln : Nat),
    (∀ l ∈ bls, sectMatch l = none ∧ ¬ remLine l) →
    secGet? ss0 n = none →
    odGet? dcur NAMEKEY = some (.vStr n) → n ≠ SETUP →
    odGet? dcur CONTENTBLOCK = some (.vStr b0) →
    ∃ lnF,
    runLines strict ⟨ss0 ++ [(n, dcur)], df, some (.sect n), none, ln, [], none⟩ bls
      = ⟨ss0 ++ [(n, odSet dcur CONTENTBLOCK (.vStr (b0 ++ bls.flatten)))], df,
         some (.sect n), none, lnF, [], none⟩ := by
  intro bls
  induction bls with
  | nil =>
    intro ss0 df n dcur b0 ln _ _ _ _ hcb
    refine ⟨ln, ?_⟩
    rw [runLines_nil,
      show (([] : List Str)).flatten = ([] : Str) from rfl, List.append_nil,
      odSet_get_self dcur CONTENTBLOCK _ hcb]
  | cons l bls ih =>
    intro ss0 df n dcur b0 ln hls hfresh hname hset hcb
    obtain ⟨hsl, hrl⟩ := hls l (by simp)
    rw [runLines_cons,
      step_capture strict ss0 df n dcur ln l b0 hfresh hsl hrl hname hset hcb]
    obtain ⟨lnF, hrun⟩ := ih ss0 df n (odSet dcur CONTENTBLOCK (.vStr (b0 ++ l)))
      (b0 ++ l) (ln + 1)
      (fun x hx => hls x (by simp [hx])) hfresh
      (by rw [odGet?_odSet_ne dcur CONTENTBLOCK NAMEKEY _ (by decide)]; exact hname)
      hset
      (odGet?_odSet_self dcur CONTENTBLOCK _)
    refine ⟨lnF, ?_⟩
    rw [hrun, odSet_odSet_same,
      show b0 ++ l ++ bls.flatten = b0 ++ (l :: bls).flatten from by
        rw [List.flatten_cons, List.append_assoc]]

lemma writeEntry_namekey (strict : Bool) (sname : Str) (w : Val) :
    writeEntry strict sname (NAMEKEY, w) = none := by
  unfold writeEntry
  rw [if_pos rfl]

lemma writeEntry_setup_opt (strict : Bool) (k v : Str) (hk : k ≠ NAMEKEY)
    (hnl : '\n' ∉ v) :
    writeEntry strict SETUP (k, .vStr v) = some (optLineOf k v) := by
  unfold writeEntry
  rw [if_neg hk, if_neg (fun hc : (k, Val.vStr v).1 = CONTENTBLOCK ∧ SETUP ≠ SETUP =>
      hc.2 rfl),
    if_pos (Or.inl (fun hv => Val.noConfusion hv))]
  have hnt : nlTab (strOfVal (k, Val.vStr v).2) = v := nlTab_no_nl v hnl
  rw [hnt]
  unfold optLineOf
  simp

lemma filterMap_setup_opts (strict : Bool) :
    ∀ (opts : List (Str × Str)),
    (∀ kv ∈ opts, '\n' ∉ (kv.2 : Str)) →
    (∀ kv ∈ opts, (kv.1 : Str) ≠ NAMEKEY) →
    (opts.map (fun kv => (kv.1, Val.vStr kv.2))).filterMap (writeEntry strict SETUP)
      = opts.map (fun kv => optLineOf kv.1 kv.2) := by
  intro opts
  induction opts with
  | nil =>
    intro _ _
    rfl
  | cons kv rest ih =>
    intro hnl hnk
    rcases kv with ⟨k, v⟩
    rw [List.map_cons, List.map_cons, List.filterMap_cons,
      writeEntry_setup_opt strict k v (hnk (k, v) (by simp)) (hnl (k, v) (by simp)),
      ih (fun x hx => hnl x (by simp [hx])) (fun x hx => hnk x (by simp [hx]))]

lemma writeSection_setup (strict : Bool) (opts : List (Str × Str))
    (hnl : ∀ kv ∈ opts, '\n' ∉ (kv.2 : Str))
    (hnk : ∀ kv ∈ opts, (kv.1 : Str) ≠ NAMEKEY) :
    writeSection strict (SETUP, setupOd opts)
      = headerLineOf SETUP ++ (opts.map (fun kv => optLineOf kv.1 kv.2)).flatten := by
  show (('[' :: SETUP) ++ "]\n".data)
      ++ ((setupOd opts).filterMap (writeEntry strict SETUP)).flatten
    = headerLineOf SETUP ++ (opts.map (fun kv => optLineOf kv.1 kv.2)).flatten
  unfold setupOd
  rw [List.filterMap_cons, writeEntry_namekey strict SETUP (.vStr SETUP)]
  show (('[' :: SETUP) ++ "]\n".data)
      ++ ((opts.map (fun kv => (kv.1, Val.vStr kv.2))).filterMap
          (writeEntry strict SETUP)).flatten
    = headerLineOf SETUP ++ (opts.map (fun kv => optLineOf kv.1 kv.2)).flatten
  rw [filterMap_setup_opts strict opts hnl hnk,
    show headerLineOf SETUP = ('[' :: SETUP) ++ "]\n".data from rfl]

lemma writeSection_content_none (strict : Bool) (n : Str) :
    writeSection strict (n, [(NAMEKEY, Val.vStr n)]) = headerLineOf n := by
  show (('[' :: n) ++ "]\n".data)
      ++ (([(NAMEKEY, Val.vStr n)] : Od).filterMap (writeEntry strict n)).flatten
    = headerLineOf n
  rw [List.filterMap_cons, writeEntry_namekey strict n (.vStr n)]
  show (('[' :: n) ++ "]\n".data) ++ (([] : List Str)).flatten = headerLineOf n
  rw [show (([] : List Str)).flatten = ([] : Str) from rfl, List.append_nil,
    show headerLineOf n = ('[' :: n) ++ "]\n".data from rfl]

lemma writeSection_content_some (strict : Bool) (n s : Str) (hns : n ≠ SETUP) :
    writeSection strict (n, [(NAMEKEY, Val.vStr n), (CONTENTBLOCK, Val.vStr s)])
      = headerLineOf n ++ s := by
  have he2 : writeEntry strict n (CONTENTBLOCK, .vStr s) = some s := by
    unfold writeEntry
    rw [if_neg (fun hc : (CONTENTBLOCK, Val.vStr s).1 = NAMEKEY =>
        absurd (show CONTENTBLOCK = NAMEKEY from hc) (by decide)),
      if_pos ⟨rfl, hns⟩]
    rfl
  show (('[' :: n) ++ "]\n".data)
      ++ (([(NAMEKEY, Val.vStr n), (CONTENTBLOCK, Val.vStr s)] : Od).filterMap
          (writeEntry strict n)).flatten
    = headerLineOf n ++ s
  rw [List.filterMap_cons, writeEntry_namekey strict n (.vStr n)]
  show (('[' :: n) ++ "]\n".data)
      ++ (([(CONTENTBLOCK, Val.vStr s)] : Od).filterMap (writeEntry strict n)).flatten
    = headerLineOf n ++ s
  rw [List.filterMap_cons, he2]
  show (('[' :: n) ++ "]\n".data)
      ++ ((s :: (([] : Od)).filterMap (writeEntry strict n)).flatten)
    = headerLineOf n ++ s
  rw [show ((s :: (([] : Od)).filterMap (writeEntry strict n)).flatten)
      = s ++ ([] : Str) from rfl,
    List.append_nil, show headerLineOf n = ('[' :: n) ++ "]\n".data from rfl]

lemma splitLines_optLines :
    ∀ (opts : List (Str × Str)),
    (∀ kv ∈ opts, '\n' ∉ (kv.1 : Str) ∧ '\n' ∉ (kv.2 : Str)) →
    splitLines ((opts.map (fun kv => optLineOf kv.1 kv.2)).flatten)
      = opts.map (fun kv => optLineOf kv.1 kv.2) := by
  intro opts
  induction opts with
  | nil =>
    intro _
    rfl
  | cons kv rest ih =>
    intro h
    rw [List.map_cons, List.flatten_cons]
    have heq : optLineOf kv.1 kv.2 = (kv.1 ++ '=' :: kv.2) ++ ['\n'] := by
      unfold optLineOf
      simp
    rw [heq, splitLines_line_append (kv.1 ++ '=' :: kv.2) _ (by
        intro hc
        rcases List.mem_append.mp hc with hc | hc
        · exact (h kv (by simp)).1 hc
        · rcases List.mem_cons.mp hc with hc | hc
          · exact absurd hc (by decide)
          · exact (h kv (by simp)).2 hc)]
    rw [ih (fun x hx => h x (by simp [hx])), ← heq]

lemma getLast?_flatten_term :
    ∀ (L : List Str), (∀ l ∈ L, l.getLast? = some '\n') → L ≠ [] →
    L.flatten.getLast? = some '\n' := by
  intro L
  induction L with
  | nil =>
    intro _ hne
    exact absurd rfl hne
  | cons l rest ih =>
    intro h _
    rw [List.flatten_cons]
    rcases hr : rest with _ | ⟨l2, rest2⟩
    · rw [show (([] : List Str)).flatten = ([] : Str) from rfl, List.append_nil]
      exact h l (by simp)
    · have hlast := ih (fun x hx => h x (by simp [hx])) (by rw [hr]; simp)
      rw [hr] at hlast
      rw [List.getLast?_append_of_ne_nil l (fun hc => by
        rw [hc] at hlast
        exact Option.noConfusion hlast)]
      exact hlast

lemma optLineOf_getLast (k v : Str) : (optLineOf k v).getLast? = some '\n' := by
  rw [show optLineOf k v = (k ++ '=' :: v) ++ ['\n'] from by unfold optLineOf; simp]
  exact List.getLast?_concat _

lemma headerLineOf_getLast (n : Str) : (headerLineOf n).getLast? = some '\n' := by
  rw [headerLineOf_eq]
  exact List.getLast?_concat _

lemma rawOdOfDesc_fst (dd : SectDesc) : (rawOdOfDesc dd).1 = (odOfDesc dd).1 := by
  rcases dd with opts | ⟨n, b⟩ <;> rfl

lemma writeSection_getLast (strict : Bool) (dd : SectDesc) (hWF : descWF strict dd) :
    (writeSection strict (odOfDesc dd)).getLast? = some '\n' := by
  rcases dd with opts | ⟨n, b⟩
  · obtain ⟨hall, hnk, -⟩ := hWF
    have hnl2 : ∀ kv ∈ opts, '\n' ∉ (kv.2 : Str) := fun kv h => (hall kv h).2.1
    have hnk2 : ∀ kv ∈ opts, (kv.1 : Str) ≠ NAMEKEY := fun kv h => fun he =>
      hnk (by rw [← he]; exact List.mem_map_of_mem Prod.fst h)
    have hw : writeSection strict (odOfDesc (.setup opts))
        = (headerLineOf SETUP :: opts.map (fun kv => optLineOf kv.1 kv.2)).flatten := by
      rw [List.flatten_cons]
      exact writeSection_setup strict opts hnl2 hnk2
    rw [hw]
    exact getLast?_flatten_term _ (by
      intro l hl
      rcases List.mem_cons.mp hl with rfl | hl
      · exact headerLineOf_getLast SETUP
      · obtain ⟨kv, -, rfl⟩ := List.mem_map.mp hl
        exact optLineOf_getLast kv.1 kv.2) (by simp)
  · rcases b with _ | s
    · show (writeSection strict (n, [(NAMEKEY, Val.vStr n)])).getLast? = some '\n'
      rw [writeSection_content_none strict n]
      exact headerLineOf_getLast n
    · obtain ⟨⟨-, -, -, hn4⟩, hsne, hslast, -⟩ := hWF
      show (writeSection strict (n, [(NAMEKEY, Val.vStr n),
          (CONTENTBLOCK, Val.vStr s)])).getLast? = some '\n'
      rw [writeSection_content_some strict n s hn4,
        List.getLast?_append_of_ne_nil _ hsne]
      exact hslast

/-- Scanning the serialized block of one described section from any state
adds exactly that section (with pending option lists) to the store. -/
lemma runOneDesc (strict : Bool) (dd : SectDesc) (ss0 : Sects) (df : Od)
    (cur : Option CurRef) (opt : Option Str) (ln : Nat)
    (hWF : descWF strict dd)
    (hfresh : secGet? ss0 (odOfDesc dd).1 = none) :
    ∃ optF lnF,
    runLines strict ⟨ss0, df, cur, opt, ln, [], none⟩
        (splitLines (writeSection strict (odOfDesc dd)))
      = ⟨ss0 ++ [rawOdOfDesc dd], df, some (.sect (odOfDesc dd).1), optF, lnF, [],
         none⟩ := by
  rcases dd with opts | ⟨n, b⟩
  · obtain ⟨hall, hnk, hnd⟩ := hWF
    have hnl2 : ∀ kv ∈ opts, '\n' ∉ (kv.2 : Str) := fun kv h => (hall kv h).2.1
    have hnk2 : ∀ kv ∈ opts, (kv.1 : Str) ≠ NAMEKEY := fun kv h => fun he =>
      hnk (by rw [← he]; exact List.mem_map_of_mem Prod.fst h)
    have hknl : ∀ kv ∈ opts, '\n' ∉ (kv.1 : Str) ∧ '\n' ∉ (kv.2 : Str) :=
      fun kv h => ⟨(hall kv h).1, (hall kv h).2.1⟩
    have hw : writeSection strict (odOfDesc (.setup opts))
        = headerLineOf SETUP ++ (opts.map (fun kv => optLineOf kv.1 kv.2)).flatten :=
      writeSection_setup strict opts hnl2 hnk2
    rw [hw, splitLines_headerLine SETUP (by decide) _,
      splitLines_optLines opts hknl, runLines_cons,
      step_header strict ss0 df cur opt ln SETUP (by decide) hfresh (by decide)]
    obtain ⟨optF, lnF, hrun⟩ := runSetupOpts strict opts ss0 df
      [(NAMEKEY, .vStr SETUP)] none (ln + 1) hall hfresh
      (by
        show (if NAMEKEY = NAMEKEY then some (Val.vStr SETUP) else odGet? [] NAMEKEY)
          = some (Val.vStr SETUP)
        rw [if_pos rfl])
      (fun kv h2 => by
        show (if NAMEKEY = kv.1 then some (Val.vStr SETUP) else odGet? [] kv.1) = none
        rw [if_neg (fun he => hnk2 kv h2 he.symm)]
        rfl)
      hnd
    exact ⟨optF, lnF, hrun⟩
  · rcases b with _ | s
    · obtain ⟨hn1, hn2, hn3, hn4⟩ := hWF
      refine ⟨none, ln + 1, ?_⟩
      show runLines strict ⟨ss0, df, cur, opt, ln, [], none⟩
          (splitLines (writeSection strict (n, [(NAMEKEY, Val.vStr n)])))
        = ⟨ss0 ++ [(n, [(NAMEKEY, Val.vStr n)])], df, some (.sect n), none, ln + 1,
           [], none⟩
      have h5 := splitLines_headerLine n hn1 []
      rw [List.append_nil, splitLines_nil] at h5
      rw [writeSection_content_none strict n, h5,
        show runLines strict ⟨ss0, df, cur, opt, ln, [], none⟩ [headerLineOf n]
          = step strict ⟨ss0, df, cur, opt, ln, [], none⟩ (headerLineOf n) from rfl]
      exact step_header strict ss0 df cur opt ln n hn2 hfresh hn3
    · obtain ⟨⟨hn1, hn2, hn3, hn4⟩, hsne, hslast, hlines⟩ := hWF
      show ∃ optF lnF, runLines strict ⟨ss0, df, cur, opt, ln, [], none⟩
          (splitLines (writeSection strict (n, [(NAMEKEY, Val.vStr n),
            (CONTENTBLOCK, Val.vStr s)])))
        = ⟨ss0 ++ [(n, [(NAMEKEY, Val.vStr n), (CONTENTBLOCK, Val.vStr s)])], df,
           some (.sect n), optF, lnF, [], none⟩
      rw [writeSection_content_some strict n s hn4, splitLines_headerLine n hn1 s,
        runLines_cons, step_header strict ss0 df cur opt ln n hn2 hfresh hn3]
      rcases hsp : splitLines s with _ | ⟨l0, rest⟩
      · exact absurd (by rw [← splitLines_flatten s, hsp]; rfl) hsne
      · have h10 := hlines l0 (by rw [hsp]; simp)
        have hrest : ∀ l ∈ rest, sectMatch l = none ∧ ¬ remLine l :=
          fun l hl => hlines l (by rw [hsp]; simp [hl])
        rw [runLines_cons,
          step_capture_fresh strict ss0 df n [(NAMEKEY, Val.vStr n)] (ln + 1) l0
            hfresh h10.1 h10.2
            (by
              show (if NAMEKEY = NAMEKEY then some (Val.vStr n) else odGet? [] NAMEKEY)
                = some (Val.vStr n)
              rw [if_pos rfl])
            hn4
            (by
              show (if NAMEKEY = CONTENTBLOCK then some (Val.vStr n)
                  else odGet? [] CONTENTBLOCK) = none
              rw [if_neg (by decide)]
              rfl)]
        have e0 : odSet [(NAMEKEY, Val.vStr n)] CONTENTBLOCK (.vStr l0)
            = [(NAMEKEY, Val.vStr n), (CONTENTBLOCK, Val.vStr l0)] := by
          show (if NAMEKEY = CONTENTBLOCK then (NAMEKEY, Val.vStr l0) :: []
              else (NAMEKEY, Val.vStr n) :: odSet [] CONTENTBLOCK (.vStr l0)) = _
          rw [if_neg (by decide)]
          rfl
        rw [e0]
        obtain ⟨lnF, hrun⟩ := runCapture strict rest ss0 df n
          [(NAMEKEY, Val.vStr n), (CONTENTBLOCK, Val.vStr l0)] l0 (ln + 1 + 1)
          hrest hfresh
          (by
            show (if NAMEKEY = NAMEKEY then some (Val.vStr n)
                else odGet? [(CONTENTBLOCK, Val.vStr l0)] NAMEKEY) = some (Val.vStr n)
            rw [if_pos rfl])
          hn4
          (by
            show (if NAMEKEY = CONTENTBLOCK then some (Val.vStr n)
                else odGet? [(CONTENTBLOCK, Val.vStr l0)] CONTENTBLOCK)
              = some (Val.vStr l0)
            rw [if_neg (by decide)]
            show (if CONTENTBLOCK = CONTENTBLOCK then some (Val.vStr l0)
                else odGet? [] CONTENTBLOCK) = some (Val.vStr l0)
            rw [if_pos rfl])
        refine ⟨none, lnF, ?_⟩
        rw [hrun]
        have hflat : l0 ++ rest.flatten = s := by
          rw [← splitLines_flatten s, hsp, List.flatten_cons]
        rw [hflat]
        have e1 : odSet [(NAMEKEY, Val.vStr n), (CONTENTBLOCK, Val.vStr l0)]
            CONTENTBLOCK (.vStr s)
            = [(NAMEKEY, Val.vStr n), (CONTENTBLOCK, Val.vStr s)] := by
          show (if NAMEKEY = CONTENTBLOCK then (NAMEKEY, Val.vStr s) ::
                [(CONTENTBLOCK, Val.vStr l0)]
              else (NAMEKEY, Val.vStr n) ::
                odSet [(CONTENTBLOCK, Val.vStr l0)] CONTENTBLOCK (.vStr s)) = _
          rw [if_neg (by decide)]
          show (NAMEKEY, Val.vStr n) :: (if CONTENTBLOCK = CONTENTBLOCK then
              (CONTENTBLOCK, Val.vStr s) :: [] else (CONTENTBLOCK, Val.vStr l0) ::
                odSet [] CONTENTBLOCK (.vStr s)) = _
          rw [if_pos rfl]
        rw [e1]

/-- Scanning the serialized blocks of a list of described sections appends
them all, in order. -/
lemma runDescs (strict : Bool) :
    ∀ (ds : List SectDesc) (ss0 : Sects) (df : Od) (cur : Option CurRef)
      (opt : Option Str) (ln : Nat),
    (∀ dd ∈ ds, descWF strict dd) →
    (∀ dd ∈ ds, secGet? ss0 (odOfDesc dd).1 = none) →
    (ds.map (fun dd => (odOfDesc dd).1)).Nodup →
    ∃ curF optF lnF,
    runLines strict ⟨ss0, df, cur, opt, ln, [], none⟩
        (splitLines ((ds.map (fun dd => writeSection strict (odOfDesc dd))).flatten))
      = ⟨ss0 ++ ds.map rawOdOfDesc, df, curF, optF, lnF, [], none⟩ := by
  intro ds
  induction ds with
  | nil =>
    intro ss0 df cur opt ln _ _ _
    exact ⟨cur, opt, ln, by simp [splitLines_nil, runLines_nil]⟩
  | cons dd ds ih =>
    intro ss0 df cur opt ln hWF hfresh hnd
    have hterm : (writeSection strict (odOfDesc dd)).getLast? = some '\n' :=
      writeSection_getLast strict dd (hWF dd (by simp))
    rw [List.map_cons, List.flatten_cons,
      splitLines_append_term _ hterm _, runLines_append]
    obtain ⟨optF, lnF, h1⟩ := runOneDesc strict dd ss0 df cur opt ln
      (hWF dd (by simp)) (hfresh dd (by simp))
    rw [h1]
    have hnd0 : ((odOfDesc dd).1 :: ds.map (fun x => (odOfDesc x).1)).Nodup := hnd
    have hnd1 := List.nodup_cons.mp hnd0
    have hddne : ∀ x ∈ ds, (odOfDesc dd).1 ≠ (odOfDesc x).1 := by
      intro x hx he
      exact hnd1.1 (by rw [he]; exact List.mem_map_of_mem _ hx)
    obtain ⟨curF, optF2, lnF2, h2⟩ := ih (ss0 ++ [rawOdOfDesc dd]) df
      (some (.sect (odOfDesc dd).1)) optF lnF
      (fun x hx => hWF x (by simp [hx]))
      (fun x hx => secGet?_append_pair_ne ss0 (rawOdOfDesc dd) (odOfDesc x).1
        (by rw [rawOdOfDesc_fst]; exact hddne x hx) (hfresh x (by simp [hx])))
      hnd1.2
    refine ⟨curF, optF2, lnF2, ?_⟩
    rw [h2, List.append_assoc, List.singleton_append]
    rfl

lemma joinOd_raw (dd : SectDesc) :
    ((rawOdOfDesc dd).1, joinOd (rawOdOfDesc dd).2) = odOfDesc dd := by
  rcases dd with opts | ⟨n, b⟩
  · show (SETUP, joinOd ((NAMEKEY, Val.vStr SETUP) ::
        opts.map (fun kv => (kv.1, Val.vList [kv.2])))) = (SETUP, setupOd opts)
    unfold joinOd setupOd
    rw [List.map_cons, List.map_map]
    rw [show ((fun kv => (kv.1, joinVal kv.2)) ∘
        (fun kv : Str × Str => (kv.1, Val.vList [kv.2])))
        = (fun kv : Str × Str => (kv.1, Val.vStr kv.2)) from funext (fun kv => rfl)]
    rfl
  · rcases b with _ | s
    · rfl
    · rfl

/-- C1, counterexample: a document produced by parsing (with constructor
defaults `a=1`) serializes to a file whose `[DEFAULT]` block re-parses
into the defaults dictionary, where the first option line raises an
unhandled `KeyError` on `__name__` (iss.py line 417): re-parsing the
serializer's own output does not yield an equivalent document — it does
not terminate normally at all. -/
theorem C1_counterexample :
    parseLines true ⟨[], [("a".data, Val.vStr "1".data)]⟩ "f".data
        ["[Setup]\n".data, "x=1\n".data]
      = (none, ⟨[("Setup".data, [(NAMEKEY, .vStr SETUP),
          ("x".data, .vStr "1".data)])], [("a".data, Val.vStr "1".data)]⟩) ∧
    (parseLines true ⟨[], []⟩ "f".data
        (splitLines (writeDoc true ⟨[("Setup".data, [(NAMEKEY, .vStr SETUP),
          ("x".data, .vStr "1".data)])], [("a".data, Val.vStr "1".data)]⟩))).1
      = some (.keyError NAMEKEY) := by
  decide

/-- C1, amended: for a document with an empty defaults overlay whose
sections are well formed — distinct non-reserved names, Setup options
whose serialized lines scan back to the same pairs, content blocks that
are newline-terminated and free of header-like and `rem` lines —
serializing and re-parsing yields exactly the same document: same
sections in the same order, same Setup option values, byte-identical
content blocks. -/
theorem C1_roundtrip_amended (strict : Bool) (fname : Str) (ds : List SectDesc)
    (hWF : ∀ dd ∈ ds, descWF strict dd)
    (hnd : (ds.map (fun dd => (odOfDesc dd).1)).Nodup) :
    parseLines strict ⟨[], []⟩ fname (splitLines (writeDoc strict (psOfDescs ds)))
      = (none, psOfDescs ds) := by
  have hw : writeDoc strict (psOfDescs ds)
      = (ds.map (fun dd => writeSection strict (odOfDesc dd))).flatten := by
    unfold writeDoc
    rw [show writeDefaults (psOfDescs ds).defaults = ([] : Str) from rfl,
      List.nil_append,
      show (psOfDescs ds).sections = ds.map odOfDesc from rfl, List.map_map]
    rfl
  obtain ⟨curF, optF, lnF, hrun⟩ := runDescs strict ds [] [] none none 0
    hWF (fun dd _ => rfl) hnd
  unfold parseLines
  have hinit : initRS ⟨[], []⟩ = (⟨[], [], none, none, 0, [], none⟩ : RS) := rfl
  rw [hinit, hw, hrun]
  show (if ([] : List (Nat × Str)) = []
      then ((none : Option PErr), joinAll ⟨[] ++ ds.map rawOdOfDesc, []⟩)
      else (some (.parsingError fname ([] : List (Nat × Str))),
        (⟨[] ++ ds.map rawOdOfDesc, []⟩ : PState)))
    = (none, psOfDescs ds)
  rw [if_pos rfl]
  have hj : joinAll ⟨[] ++ ds.map rawOdOfDesc, []⟩ = psOfDescs ds := by
    show (⟨((([] : Sects) ++ ds.map rawOdOfDesc)).map (fun nd => (nd.1, joinOd nd.2)),
        joinOd []⟩ : PState) = psOfDescs ds
    rw [List.nil_append, List.map_map]
    show (⟨ds.map ((fun nd => (nd.1, joinOd nd.2)) ∘ rawOdOfDesc), ([] : Od)⟩ : PState)
      = psOfDescs ds
    unfold psOfDescs
    rw [show ds.map ((fun nd => (nd.1, joinOd nd.2)) ∘ rawOdOfDesc) = ds.map odOfDesc
      from List.map_congr_left (fun dd _ => joinOd_raw dd)]
  rw [hj]

/-- C1, witness: the amended statement on a document with a Setup section
(`AppName=My Prog`) and a content section `[Files]` holding the block
`x; y\n`. -/
theorem C1_roundtrip_witness :
    parseLines true ⟨[], []⟩ "f".data
        (splitLines (writeDoc true (psOfDescs
          [.setup [("AppName".data, "My Prog".data)],
           .content "Files".data (some "x; y\n".data)])))
      = (none, psOfDescs
          [.setup [("AppName".data, "My Prog".data)],
           .content "Files".data (some "x; y\n".data)]) :=
  C1_roundtrip_amended true "f".data
    [.setup [("AppName".data, "My Prog".data)],
     .content "Files".data (some "x; y\n".data)]
    (by decide) (by decide)

end ISS
